import Mathlib

/-!
Verification of the crypto-market-data-collector connector/normalizer core.

The development shallowly embeds the C++ sources of
`ilia-funtov/crypto-market-data-collector`:

* `src/include/market_data_common.hpp` — the shared order-book base
  (`order_book_subscriber_base`), its consistency predicate and emission.
* `src/include/kraken_api.hpp` — Kraken REST response parsing
  (`make_timestamp`, `parse_response`, `parse_order_book_records`,
  `KAPI::get_trades`, `KAPI::get_order_book`).
* the Kraken poll loops (`kraken_trades_subscriber::thread_loop`,
  `kraken_order_book_subscriber::thread_loop`).
* `src/include/timestamp_parser.hpp` — ISO-8601 parsing on top of `timegm`.
* the Coinbase / Bitfinex / BitMEX message handlers.
* `src/include/market_data_provider.hpp` — the dump pipeline
  (`order_book_handler` pair interleaving, `get_block_index`).

C++ `double` values that hold prices, volumes and wire timestamps are
modelled as `ℚ`; `std::map<double, double>` is modelled as an association
list with strictly ascending keys; machine-integer conversions carry an
explicit truncation where they matter.  JSON values are modelled by the
inductive `JVal`; C++ exceptions become `Option`/sum results.
-/

namespace MarketData

/-- Taker side of a trade; models `market_data_common::taker_deal_type`. -/
inductive TakerSide where
  | buy
  | sell
deriving DecidableEq, Repr

/-- JSON value, modelling the `nlohmann::json` values the handlers consume.
Numbers are carried as rationals (the C++ code reads them as `double`). -/
inductive JVal where
  | null
  | num (q : ℚ)
  | str (s : String)
  | bool (b : Bool)
  | arr (xs : List JVal)
  | obj (fields : List (String × JVal))

/-- Models `json::is_number()`. -/
def JVal.isNumber : JVal → Bool
  | .num _ => true
  | _ => false

/-- Models `json::is_string()`. -/
def JVal.isString : JVal → Bool
  | .str _ => true
  | _ => false

/-- Models `json::is_array()`. -/
def JVal.isArray : JVal → Bool
  | .arr _ => true
  | _ => false

/-- Models `json::is_object()`. -/
def JVal.isObject : JVal → Bool
  | .obj _ => true
  | _ => false

/-- Elements of an array value (empty for non-arrays). -/
def JVal.elems : JVal → List JVal
  | .arr xs => xs
  | _ => []

/-- Models `json::size()` (nlohmann semantics: arrays/objects give their
length, `null` gives 0, scalars give 1). -/
def JVal.size : JVal → ℕ
  | .null => 0
  | .arr xs => xs.length
  | .obj fs => fs.length
  | _ => 1

/-- Array indexing; `null` outside an array's range (the C++ handlers only
index after an `is_array`/size guard, so only the array case is exercised). -/
def JVal.at : JVal → ℕ → JVal
  | .arr xs, i => (xs.get? i).getD .null
  | _, _ => .null

/-- Object member lookup, modelling `json::find` (first binding wins). -/
def JVal.find : JVal → String → Option JVal
  | .obj fs, k => (fs.find? (fun f => f.1 == k)).map Prod.snd
  | _, _ => none

/-- String payload of a value, if it is a string (`json::get<std::string>`
throws otherwise, which callers surface as an error result). -/
def JVal.asString : JVal → Option String
  | .str s => some s
  | _ => none

/-- Numeric payload of a value, if it is a number (`json::get<double>`
throws otherwise). -/
def JVal.asNum : JVal → Option ℚ
  | .num q => some q
  | _ => none

/-- Models `json == "<literal>"` for a string literal: true exactly when the
value is that string. -/
def JVal.eqStr (v : JVal) (s : String) : Bool :=
  match v with
  | .str t => t == s
  | _ => false

/-! ## Order maps

`market_data_common::order_map_t` is `std::map<double, double>`: a mapping
from price to volume ordered by ascending key.  It is modelled as an
association list whose keys are strictly increasing.  `cbegin` is the head,
`crbegin` is the last element. -/

/-- Price-to-volume map, modelling `market_data_common::order_map_t`. -/
abbrev OrderMap := List (ℚ × ℚ)

/-- Keys of an order map, in storage order. -/
def omKeys (m : OrderMap) : List ℚ := m.map Prod.fst

/-- The `std::map` representation invariant: keys strictly ascending. -/
def omSorted (m : OrderMap) : Prop := List.Pairwise (· < ·) (omKeys m)

/-- Models `map[price] = volume` (insert or overwrite, keeping key order). -/
def omSet : OrderMap → ℚ → ℚ → OrderMap
  | [], p, v => [(p, v)]
  | (q, w) :: rest, p, v =>
    if p < q then (p, v) :: (q, w) :: rest
    else if p = q then (p, v) :: rest
    else (q, w) :: omSet rest p v

/-- Models `map.emplace(price, volume)` (insert only when the key is absent,
keeping key order). -/
def omEmplace : OrderMap → ℚ → ℚ → OrderMap
  | [], p, v => [(p, v)]
  | (q, w) :: rest, p, v =>
    if p < q then (p, v) :: (q, w) :: rest
    else if p = q then (q, w) :: rest
    else (q, w) :: omEmplace rest p v

/-- Models `map.erase(price)`. -/
def omErase : OrderMap → ℚ → OrderMap
  | [], _ => []
  | (q, w) :: rest, p => if p = q then rest else (q, w) :: omErase rest p

/-! ## Order-book subscriber base (`market_data_common.hpp`)

`order_book_subscriber_base` keeps `asks_price_volume_map` and
`bids_price_volume_map` and offers `handle_order_book_if_consistent`:
compute `best_ask` as the first ask key (0 when empty) and `best_bid` as the
last bid key (0 when empty), refuse when `best_bid <= 0 || best_ask <= 0 ||
best_bid > best_ask`, otherwise invoke the book callback with
`(symbol, asks, bids)` and return true. -/

/-- State of one exchange subscriber's book, i.e. the two maps owned by
`order_book_subscriber_base`. -/
structure BookState where
  asks : OrderMap
  bids : OrderMap
deriving DecidableEq

/-- Best ask as the code computes it: `asks.cbegin()->first`, 0 when empty. -/
def bestAskOf (asks : OrderMap) : ℚ :=
  match asks.head? with
  | none => 0
  | some x => x.1

/-- Best bid as the code computes it: `bids.crbegin()->first`, 0 when empty. -/
def bestBidOf (bids : OrderMap) : ℚ :=
  match bids.getLast? with
  | none => 0
  | some x => x.1

/-- Models `order_book_subscriber_base::is_order_book_consistent`. -/
def isOrderBookConsistent (asks bids : OrderMap) : Bool :=
  if bestBidOf bids ≤ 0 ∨ bestAskOf asks ≤ 0 ∨ bestBidOf bids > bestAskOf asks
  then false else true

/-- A book emission: the arguments `handle_order_book` passes to the book
callback. -/
structure BookEmission where
  symbol : String
  asks : OrderMap
  bids : OrderMap
deriving DecidableEq

/-- Models `order_book_subscriber_base::handle_order_book_if_consistent`:
the optional callback invocation paired with the returned flag. -/
def handleOrderBookIfConsistent (symbol : String) (asks bids : OrderMap) :
    Option BookEmission × Bool :=
  if isOrderBookConsistent asks bids
  then (some ⟨symbol, asks, bids⟩, true)
  else (none, false)

/-- In a sorted order map every key is at least the head key. -/
theorem head_le_of_omSorted {m : OrderMap} (h : omSorted m) :
    ∀ k ∈ omKeys m, bestAskOf m ≤ k := by
  intro k hk
  cases m with
  | nil => simp [omKeys] at hk
  | cons x rest =>
    simp only [bestAskOf, List.head?]
    simp only [omSorted, omKeys, List.map_cons, List.pairwise_cons] at h
    simp only [omKeys, List.map_cons, List.mem_cons] at hk
    rcases hk with hk | hk
    · exact le_of_eq hk.symm
    · exact le_of_lt (h.1 k hk)

/-- In a sorted order map every key is at most the last key. -/
theorem le_getLast_of_omSorted :
    ∀ {m : OrderMap}, omSorted m → ∀ k ∈ omKeys m, k ≤ bestBidOf m := by
  intro m
  induction m with
  | nil => intro _ k hk; simp [omKeys] at hk
  | cons x rest ih =>
    intro h k hk
    simp only [omSorted, omKeys, List.map_cons, List.pairwise_cons] at h
    simp only [omKeys, List.map_cons, List.mem_cons] at hk
    cases rest with
    | nil =>
      simp only [bestBidOf, List.getLast?_singleton]
      rcases hk with hk | hk
      · exact le_of_eq hk
      · simp at hk
    | cons y ys =>
      have hlast : bestBidOf (x :: y :: ys) = bestBidOf (y :: ys) := by
        simp [bestBidOf, List.getLast?_cons_cons]
      rw [hlast]
      rcases hk with rfl | hk
      · have hy : x.1 < y.1 := h.1 y.1 (by simp [omKeys])
        have := ih h.2 y.1 (by simp [omKeys])
        exact le_trans (le_of_lt hy) this
      · exact ih h.2 k (by simpa [omKeys] using hk)

/-! ## Numeric string conversion

`json_helpers::get_double` reads a JSON value as `double`, accepting either
a number or a string converted with `std::stod`. -/

/-- Accumulates a decimal digit string into a natural number. -/
def digitsToNat (ds : List Char) : ℕ :=
  ds.foldl (fun a c => a * 10 + (c.toNat - 48)) 0

/-- Models `std::stod` on decimal input: optional leading whitespace, an
optional sign, digits with an optional fractional part, and an optional
decimal exponent; `none` models `std::invalid_argument` when no conversion
can be performed. -/
def stodQ (s : String) : Option ℚ :=
  let cs := s.toList.dropWhile Char.isWhitespace
  let sgn : ℚ := match cs with
    | '-' :: _ => -1
    | _ => 1
  let cs := match cs with
    | '-' :: rest => rest
    | '+' :: rest => rest
    | _ => cs
  let ip := cs.takeWhile Char.isDigit
  let cs := cs.dropWhile Char.isDigit
  let fp := match cs with
    | '.' :: rest => rest.takeWhile Char.isDigit
    | _ => []
  let cs := match cs with
    | '.' :: rest => rest.dropWhile Char.isDigit
    | _ => cs
  if ip.isEmpty ∧ fp.isEmpty then none
  else
    let mant : ℚ := (digitsToNat ip : ℚ) + (digitsToNat fp : ℚ) / ((10 : ℚ) ^ fp.length)
    let expo : ℤ := match cs with
      | 'e' :: '-' :: rest =>
        if (rest.takeWhile Char.isDigit).isEmpty then 0
        else -(digitsToNat (rest.takeWhile Char.isDigit) : ℤ)
      | 'E' :: '-' :: rest =>
        if (rest.takeWhile Char.isDigit).isEmpty then 0
        else -(digitsToNat (rest.takeWhile Char.isDigit) : ℤ)
      | 'e' :: '+' :: rest => (digitsToNat (rest.takeWhile Char.isDigit) : ℤ)
      | 'E' :: '+' :: rest => (digitsToNat (rest.takeWhile Char.isDigit) : ℤ)
      | 'e' :: rest => (digitsToNat (rest.takeWhile Char.isDigit) : ℤ)
      | 'E' :: rest => (digitsToNat (rest.takeWhile Char.isDigit) : ℤ)
      | _ => 0
    some (sgn * mant * (10 : ℚ) ^ expo)

/-- Models `json_helpers::get_double`: a number is taken as is, a string
goes through `std::stod`; anything else throws (`none`). -/
def get_double (v : JVal) : Option ℚ :=
  match v with
  | .num q => some q
  | .str s => stodQ s
  | _ => none

/-! ## Kraken REST API (`kraken_api.hpp`) -/

/-- Kraken order types, models `kraken::order_type` (the public `Trades`
endpoint only ever produces `unknown`, `market` or `limit`). -/
inductive KrOrderType where
  | unknown
  | market
  | limit
deriving DecidableEq, Repr

/-- Models `kraken::deal_type`. -/
inductive KrDealType where
  | unknown
  | buy
  | sell
deriving DecidableEq, Repr

/-- Models `kraken::details::make_timestamp`: the wire value (seconds, a
`double`) is multiplied by 1000 once and truncated to `std::uint64_t`. -/
def make_timestamp (q : ℚ) : ℕ := (⌊q * 1000⌋).toNat

/-- Models `kraken::trade_record`. -/
structure TradeRecord where
  price : ℚ
  volume : ℚ
  timestamp : ℕ
  deal : KrDealType
  order : KrOrderType
  misc : String
deriving DecidableEq

/-- Container iteration of a JSON value, as nlohmann for-range iteration
behaves: arrays iterate elements, objects iterate member values, `null` is
empty and scalars yield themselves once. -/
def JVal.iterVals : JVal → List JVal
  | .arr xs => xs
  | .obj fs => fs.map Prod.snd
  | .null => []
  | v => [v]

/-- Direction field of a Kraken trade: `"b"` is buy, `"s"` is sell,
everything else is unknown (from `KAPI::get_trades`). -/
def kr_deal_of_wire (s : String) : KrDealType :=
  if s = "b" then .buy else if s = "s" then .sell else .unknown

/-- Order-type field of a Kraken trade: `"m"` is market, `"l"` is limit,
everything else is unknown (from `KAPI::get_trades`). -/
def kr_order_of_wire (s : String) : KrOrderType :=
  if s = "m" then .market else if s = "l" then .limit else .unknown

/-- Models the per-item cursor reads of `KAPI::get_trades`: up to six
fields are read in order, missing trailing fields keep the zero-initialized
defaults of `trade_record{}`; a failed `get_double`/`get<std::string>`
throws (`none`). -/
def parse_trade_item (item : JVal) : Option TradeRecord := do
  let xs := item.iterVals
  let price ← if 0 < xs.length then get_double (xs.getD 0 .null) else some 0
  let volume ← if 1 < xs.length then get_double (xs.getD 1 .null) else some 0
  let ts ← if 2 < xs.length then (get_double (xs.getD 2 .null)).map make_timestamp
           else some 0
  let deal ← if 3 < xs.length then ((xs.getD 3 .null).asString).map kr_deal_of_wire
             else some .unknown
  let order ← if 4 < xs.length then ((xs.getD 4 .null).asString).map kr_order_of_wire
              else some .unknown
  let misc ← if 5 < xs.length then (xs.getD 5 .null).asString else some ""
  pure ⟨price, volume, ts, deal, order, misc⟩

/-- Record filter of `KAPI::get_trades`: only complete positive records are
returned. -/
def trade_record_kept (r : TradeRecord) : Bool :=
  decide (0 < r.price) && decide (0 < r.volume) && (r.timestamp != 0) &&
    (r.deal != .unknown) && (r.order != .unknown)

/-- Models `kraken::get_trades_response`. -/
structure GetTradesResponse where
  records : List TradeRecord
  last_id : ℕ
deriving DecidableEq

/-- Models the response assembly of `KAPI::get_trades` from the
`result[pair]` array (`trades_list`) and the already-extracted `result.last`
cursor value. -/
def get_trades_parse (trades_list : List JVal) (last : ℕ) :
    Option GetTradesResponse :=
  (trades_list.mapM parse_trade_item).map fun rs =>
    ⟨rs.filter trade_record_kept, last⟩

/-- A normalized trade event: the argument tuple passed to
`market_data_common::trade_handler_t`. -/
structure TradeEvent where
  symbol : String
  price : ℚ
  volume : ℚ
  timestamp : ℕ
  side : TakerSide
deriving DecidableEq

/-- Models one iteration of `kraken_trades_subscriber::thread_loop` after a
successful `get_trades`: the new `since` cursor together with the trade
events handed to the trade handler, in order. -/
def kraken_trades_poll_step (symbol : String) (since : ℕ)
    (resp : GetTradesResponse) : ℕ × List TradeEvent :=
  if since = 0 then (resp.last_id, [])
  else
    (resp.last_id,
      resp.records.filterMap fun r =>
        if r.order ≠ KrOrderType.market ∨ r.deal = KrDealType.unknown then none
        else some ⟨symbol, r.price, r.volume, r.timestamp,
          if r.deal = KrDealType.buy then TakerSide.buy else TakerSide.sell⟩)

/-- The C3 claim's own words about which returned records are emitted: those
whose order-type field was `"m"` (market) and whose direction was `"b"` or
`"s"`, mapped to taker buy and sell. -/
def spec_emitted_trades (symbol : String) (records : List TradeRecord) :
    List TradeEvent :=
  (records.filter fun r =>
      decide (r.order = KrOrderType.market) &&
        (decide (r.deal = KrDealType.buy) || decide (r.deal = KrDealType.sell))).map
    fun r => ⟨symbol, r.price, r.volume, r.timestamp,
      if r.deal = KrDealType.buy then TakerSide.buy else TakerSide.sell⟩

/-- Models `tolower` on the character set relevant to Kraken error codes. -/
def tolowerChar (c : Char) : Char :=
  if 'A' ≤ c ∧ c ≤ 'Z' then Char.ofNat (c.toNat + 32) else c

/-- One step of the error-message accumulation loop of
`kraken::details::parse_response`: a non-empty error string whose first
character lowercases to `'e'` is appended to the message. -/
def kr_error_step (acc e : String) : String :=
  match e.data with
  | [] => acc
  | c :: _ =>
    if tolowerChar c = 'e' then (if acc.isEmpty then e else acc ++ ", " ++ e)
    else acc

/-- Models the error-message accumulation loop of
`kraken::details::parse_response`. -/
def kraken_error_message (errors : List String) : String :=
  errors.foldl kr_error_step ""

/-- Models whether `kraken::details::parse_response` throws a
`kraken_api_error` for a response carrying the given `error` array. -/
def parse_response_raises (errors : List String) : Bool :=
  !(kraken_error_message errors).isEmpty

/-- Models `kraken::order_book_record`. -/
structure OrderBookRecord where
  price : ℚ
  volume : ℚ
  timestamp : ℕ
deriving DecidableEq

/-- Models the per-item cursor reads of
`kraken::details::parse_order_book_records` (up to three fields, missing
ones default to zero). -/
def parse_order_book_item (item : JVal) : Option OrderBookRecord := do
  let xs := item.iterVals
  let price ← if 0 < xs.length then get_double (xs.getD 0 .null) else some 0
  let volume ← if 1 < xs.length then get_double (xs.getD 1 .null) else some 0
  let ts ← if 2 < xs.length then (get_double (xs.getD 2 .null)).map make_timestamp
           else some 0
  pure ⟨price, volume, ts⟩

/-- Models `kraken::details::parse_order_book_records`: each record is
parsed and kept exactly when `price > 0 && volume > 0`. -/
def parse_order_book_records (xs : List JVal) : Option (List OrderBookRecord) :=
  (xs.mapM parse_order_book_item).map
    (·.filter fun r => decide (0 < r.price) && decide (0 < r.volume))

/-- Models `kraken::get_order_book_response`. -/
structure GetOrderBookResponse where
  asks : List OrderBookRecord
  bids : List OrderBookRecord
deriving DecidableEq

/-- Models the body of `KAPI::get_order_book` after `parse_response`. -/
def get_order_book_parse (asksWire bidsWire : List JVal) :
    Option GetOrderBookResponse := do
  let asks ← parse_order_book_records asksWire
  let bids ← parse_order_book_records bidsWire
  pure ⟨asks, bids⟩

/-- Models building an `order_map_t` from response records the way
`kraken_order_book_subscriber::thread_loop` does (`emplace` per record). -/
def build_order_map (records : List OrderBookRecord) : OrderMap :=
  records.foldl (fun m r => omEmplace m r.price r.volume) []

/-- Models one iteration of `kraken_order_book_subscriber::thread_loop`
after a successful `get_order_book`: the (possibly unchanged) stored book
and the optional emission. -/
def kraken_book_poll_step (symbol : String) (st : BookState)
    (resp : GetOrderBookResponse) : BookState × Option BookEmission :=
  if resp.asks ≠ [] ∧ resp.bids ≠ [] then
    let st1 : BookState := ⟨build_order_map resp.asks, build_order_map resp.bids⟩
    (st1, (handleOrderBookIfConsistent symbol st1.asks st1.bids).1)
  else (st, none)

/-- The best bid is an attained key of a non-empty bids map. -/
theorem bestBidOf_mem {m : OrderMap} (h : m ≠ []) : bestBidOf m ∈ omKeys m := by
  have hlast := List.getLast?_eq_getLast m h
  simp only [bestBidOf, hlast]
  exact List.mem_map_of_mem Prod.fst (List.getLast_mem h)

/-- The best ask is an attained key of a non-empty asks map. -/
theorem bestAskOf_mem {m : OrderMap} (h : m ≠ []) : bestAskOf m ∈ omKeys m := by
  cases m with
  | nil => exact absurd rfl h
  | cons x rest => exact List.mem_map_of_mem Prod.fst (List.mem_cons_self x rest)

/-- C2: with the `std::map` key ordering in force, the book callback is
invoked with `(symbol, asks, bids)` and `handle_order_book_if_consistent`
returns true exactly when both maps are non-empty, the maximum bid key and
the minimum ask key are positive, and the maximum bid key is at most the
minimum ask key (the code's `best_bid`/`best_ask` are exactly that maximum
and minimum); in every other state nothing is emitted and false is
returned, so every emitted book satisfies
`0 < best_bid ∧ 0 < best_ask ∧ best_bid ≤ best_ask`. -/
theorem handle_order_book_iff_consistent (symbol : String) (asks bids : OrderMap)
    (ha : omSorted asks) (hb : omSorted bids) :
    (((handleOrderBookIfConsistent symbol asks bids).2 = true ∧
      (handleOrderBookIfConsistent symbol asks bids).1 = some ⟨symbol, asks, bids⟩) ↔
      (asks ≠ [] ∧ bids ≠ [] ∧ 0 < bestBidOf bids ∧ 0 < bestAskOf asks ∧
        bestBidOf bids ≤ bestAskOf asks)) ∧
    (∀ k ∈ omKeys bids, k ≤ bestBidOf bids) ∧
    (∀ k ∈ omKeys asks, bestAskOf asks ≤ k) ∧
    (bids ≠ [] → bestBidOf bids ∈ omKeys bids) ∧
    (asks ≠ [] → bestAskOf asks ∈ omKeys asks) ∧
    ((handleOrderBookIfConsistent symbol asks bids).2 = false →
      (handleOrderBookIfConsistent symbol asks bids).1 = none) ∧
    (∀ e, (handleOrderBookIfConsistent symbol asks bids).1 = some e →
      0 < bestBidOf e.bids ∧ 0 < bestAskOf e.asks ∧
        bestBidOf e.bids ≤ bestAskOf e.asks) := by
  have hasks : asks = [] → bestAskOf asks = 0 := by
    intro h; subst h; rfl
  have hbids : bids = [] → bestBidOf bids = 0 := by
    intro h; subst h; rfl
  by_cases hcond :
      bestBidOf bids ≤ 0 ∨ bestAskOf asks ≤ 0 ∨ bestBidOf bids > bestAskOf asks
  · have hc : isOrderBookConsistent asks bids = false := by
      simp [isOrderBookConsistent, if_pos hcond]
    refine ⟨?_, le_getLast_of_omSorted hb, head_le_of_omSorted ha,
      fun h => bestBidOf_mem h, fun h => bestAskOf_mem h, ?_, ?_⟩
    · simp only [handleOrderBookIfConsistent, hc]
      constructor
      · rintro ⟨h, -⟩; simp at h
      · rintro ⟨-, -, hbb, hba, hle⟩
        rcases hcond with h | h | h
        · exact absurd hbb (not_lt.mpr h)
        · exact absurd hba (not_lt.mpr h)
        · exact absurd hle (not_le.mpr h)
    · intro _
      simp [handleOrderBookIfConsistent, hc]
    · intro e he
      simp [handleOrderBookIfConsistent, hc] at he
  · push_neg at hcond
    obtain ⟨hbb, hba, hle⟩ := hcond
    have hc : isOrderBookConsistent asks bids = true := by
      have hne : ¬(bestBidOf bids ≤ 0 ∨ bestAskOf asks ≤ 0 ∨
          bestBidOf bids > bestAskOf asks) := by
        push_neg
        exact ⟨hbb, hba, hle⟩
      simp [isOrderBookConsistent, if_neg hne]
    refine ⟨?_, le_getLast_of_omSorted hb, head_le_of_omSorted ha,
      fun h => bestBidOf_mem h, fun h => bestAskOf_mem h, ?_, ?_⟩
    · simp only [handleOrderBookIfConsistent, hc]
      constructor
      · intro _
        refine ⟨?_, ?_, hbb, hba, hle⟩
        · intro h; rw [hasks h] at hba; exact absurd hba (by simp)
        · intro h; rw [hbids h] at hbb; exact absurd hbb (by simp)
      · intro _; simp
    · intro h
      simp [handleOrderBookIfConsistent, hc] at h
    · intro e he
      simp only [handleOrderBookIfConsistent, hc, if_pos, Option.some_inj] at he
      subst he
      exact ⟨hbb, hba, hle⟩

/-- Whether an error string makes `parse_response` contribute to the thrown
message: non-empty and first character lowercasing to `'e'`. -/
def kr_error_qualifies (e : String) : Bool :=
  match e.data with
  | [] => false
  | c :: _ => decide (tolowerChar c = 'e')

/-- Unfolding `kr_error_step` on an empty error string. -/
theorem kr_error_step_nil (acc e : String) (h : e.data = []) :
    kr_error_step acc e = acc := by
  unfold kr_error_step
  rw [h]

/-- Unfolding `kr_error_step` on a non-empty error string. -/
theorem kr_error_step_cons (acc e : String) (c : Char) (rest : List Char)
    (h : e.data = c :: rest) :
    kr_error_step acc e =
      if tolowerChar c = 'e' then (if acc.isEmpty then e else acc ++ ", " ++ e)
      else acc := by
  unfold kr_error_step
  rw [h]

/-- Unfolding `kr_error_qualifies` on an empty error string. -/
theorem kr_error_qualifies_nil (e : String) (h : e.data = []) :
    kr_error_qualifies e = false := by
  unfold kr_error_qualifies
  rw [h]

/-- Unfolding `kr_error_qualifies` on a non-empty error string. -/
theorem kr_error_qualifies_cons (e : String) (c : Char) (rest : List Char)
    (h : e.data = c :: rest) :
    kr_error_qualifies e = decide (tolowerChar c = 'e') := by
  unfold kr_error_qualifies
  rw [h]

/-- Appending a qualifying error keeps the accumulated message non-empty. -/
theorem kr_append_ne_empty (a e : String) : (a ++ ", " ++ e) ≠ "" := by
  intro h
  have h2 := congrArg String.length h
  simp only [String.length_append] at h2
  have hc : (", " : String).length = 2 := rfl
  rw [hc] at h2
  have hz : ("" : String).length = 0 := rfl
  rw [hz] at h2
  omega

/-- The accumulated Kraken error message is empty exactly when the
accumulator started empty and no error string qualifies. -/
theorem kraken_error_message_empty_iff :
    ∀ (errors : List String) (acc : String),
      (errors.foldl kr_error_step acc) = "" ↔
        (acc = "" ∧ ∀ e ∈ errors, kr_error_qualifies e = false) := by
  intro errors
  induction errors with
  | nil => intro acc; simp
  | cons x xs ih =>
    intro acc
    simp only [List.foldl_cons, List.mem_cons]
    cases hx : x.data with
    | nil =>
      rw [kr_error_step_nil acc x hx, ih acc]
      constructor
      · rintro ⟨h1, h2⟩
        refine ⟨h1, fun e he => ?_⟩
        rcases he with rfl | he
        · exact kr_error_qualifies_nil e hx
        · exact h2 e he
      · rintro ⟨h1, h2⟩
        exact ⟨h1, fun e he => h2 e (Or.inr he)⟩
    | cons c rest =>
      rw [kr_error_step_cons acc x c rest hx]
      by_cases hc : tolowerChar c = 'e'
      · rw [if_pos hc]
        by_cases hacc : acc.isEmpty
        · rw [if_pos hacc, ih x]
          constructor
          · rintro ⟨h1, -⟩
            exfalso
            have := congrArg String.data h1
            rw [hx] at this
            simp at this
          · rintro ⟨-, h2⟩
            have := h2 x (Or.inl rfl)
            rw [kr_error_qualifies_cons x c rest hx] at this
            simp [hc] at this
        · rw [if_neg hacc, ih (acc ++ ", " ++ x)]
          constructor
          · rintro ⟨h1, -⟩
            exact absurd h1 (kr_append_ne_empty acc x)
          · rintro ⟨-, h2⟩
            have := h2 x (Or.inl rfl)
            rw [kr_error_qualifies_cons x c rest hx] at this
            simp [hc] at this
      · rw [if_neg hc, ih acc]
        constructor
        · rintro ⟨h1, h2⟩
          refine ⟨h1, fun e he => ?_⟩
          rcases he with rfl | he
          · rw [kr_error_qualifies_cons e c rest hx]
            simp [hc]
          · exact h2 e he
        · rintro ⟨h1, h2⟩
          exact ⟨h1, fun e he => h2 e (Or.inr he)⟩

/-- C9 (amended): `parse_response` raises exactly when some error string is
non-empty and starts, case-insensitively, with `'e'` (i.e. with `'E'` or
`'e'`); and the Depth records are exactly the parsed records filtered to
`price > 0 ∧ volume > 0`. -/
theorem kraken_depth_parse_claim (errors : List String) (xs : List JVal)
    (rs : List OrderBookRecord) (hp : xs.mapM parse_order_book_item = some rs) :
    (parse_response_raises errors = true ↔
      ∃ e ∈ errors, ∃ c rest, e.toList = c :: rest ∧ tolowerChar c = 'e') ∧
    parse_order_book_records xs =
      some (rs.filter fun r => decide (0 < r.price) && decide (0 < r.volume)) ∧
    (∀ out, parse_order_book_records xs = some out →
      ∀ r ∈ out, 0 < r.price ∧ 0 < r.volume ∧ r ∈ rs) := by
  have hfil : parse_order_book_records xs =
      some (rs.filter fun r => decide (0 < r.price) && decide (0 < r.volume)) := by
    unfold parse_order_book_records
    rw [hp]
    rfl
  refine ⟨?_, hfil, ?_⟩
  · have hiff := kraken_error_message_empty_iff errors ""
    constructor
    · intro h
      have hne : kraken_error_message errors ≠ "" := by
        intro hcontr
        unfold parse_response_raises at h
        rw [hcontr] at h
        exact absurd h (by decide)
      have hnot : ¬ ∀ e ∈ errors, kr_error_qualifies e = false := by
        intro hall
        exact hne (hiff.mpr ⟨rfl, hall⟩)
      push_neg at hnot
      obtain ⟨e, he, hq⟩ := hnot
      have hq2 : kr_error_qualifies e = true := by
        revert hq
        cases kr_error_qualifies e <;> simp
      cases hx : e.data with
      | nil =>
        rw [kr_error_qualifies_nil e hx] at hq2
        exact absurd hq2 (by simp)
      | cons c rest =>
        rw [kr_error_qualifies_cons e c rest hx] at hq2
        simp only [decide_eq_true_eq] at hq2
        exact ⟨e, he, c, rest, hx, hq2⟩
    · rintro ⟨e, he, c, rest, hx, hc⟩
      have hne : kraken_error_message errors ≠ "" := by
        intro hcontr
        have hq := (hiff.mp hcontr).2 e he
        rw [kr_error_qualifies_cons e c rest hx] at hq
        simp [hc] at hq
      unfold parse_response_raises
      cases hbe : (kraken_error_message errors).isEmpty with
      | false => rfl
      | true => exact absurd ((String.isEmpty_iff _).mp hbe) hne
  · intro out hout r hr
    rw [hfil] at hout
    have hout2 := Option.some.inj hout
    subst hout2
    rw [List.mem_filter] at hr
    have hcond := hr.2
    simp only [Bool.and_eq_true, decide_eq_true_eq] at hcond
    exact ⟨hcond.1, hcond.2, hr.1⟩

/-- Counterexample for C9: the response whose error array is `["etest"]`
raises (first character lowercases to `'e'`) although no error string
starts with the capital character `'E'` required by the claim. -/
theorem kraken_error_lowercase_counterexample :
    parse_response_raises ["etest"] = true ∧
    "etest".toList.head? ≠ some 'E' := by
  constructor
  · rfl
  · decide

/-- Witness for C9 (amended): a concrete Depth response with one record and
an error array whose single entry starts with capital `'E'`. -/
theorem kraken_depth_parse_claim_witness :
    parse_response_raises ["EQuery:Unknown asset pair"] = true ∧
    parse_order_book_records [JVal.arr [JVal.num 5, JVal.num 2, JVal.num 3]] =
      some [⟨5, 2, 3000⟩] := by
  have hp : [JVal.arr [JVal.num 5, JVal.num 2, JVal.num 3]].mapM
      parse_order_book_item = some [⟨5, 2, 3000⟩] := by
    simp only [List.mapM_cons, List.mapM_nil, parse_order_book_item]
    norm_num [JVal.iterVals, get_double, make_timestamp, bind, pure]
    rfl
  have h := kraken_depth_parse_claim ["EQuery:Unknown asset pair"]
    [JVal.arr [JVal.num 5, JVal.num 2, JVal.num 3]] [⟨5, 2, 3000⟩] hp
  constructor
  · exact h.1.mpr ⟨"EQuery:Unknown asset pair", by simp, 'E',
      "Query:Unknown asset pair".data, by decide, by decide⟩
  · rw [h.2.1]
    norm_num

/-- If every record of a list is a complete positive record (as
`KAPI::get_trades` guarantees for returned records), the skip condition of
`kraken_trades_subscriber::thread_loop` emits exactly the records whose
order type is market and whose direction parsed to buy or sell. -/
theorem filterMap_emit_eq_spec (symbol : String) :
    ∀ records : List TradeRecord,
      (∀ r ∈ records, r.deal ≠ KrDealType.unknown) →
      (records.filterMap fun r =>
        if r.order ≠ KrOrderType.market ∨ r.deal = KrDealType.unknown then none
        else some ⟨symbol, r.price, r.volume, r.timestamp,
          if r.deal = KrDealType.buy then TakerSide.buy else TakerSide.sell⟩) =
      spec_emitted_trades symbol records := by
  intro records
  induction records with
  | nil => intro _; rfl
  | cons r rest ih =>
    intro hall
    have hr := hall r (by simp)
    have hrest := fun x hx => hall x (List.mem_cons_of_mem r hx)
    have hdeal : r.deal = KrDealType.buy ∨ r.deal = KrDealType.sell := by
      cases hd : r.deal with
      | unknown => exact absurd hd hr
      | buy => exact Or.inl rfl
      | sell => exact Or.inr rfl
    rw [List.filterMap_cons]
    unfold spec_emitted_trades
    rw [List.filter_cons]
    by_cases hor : r.order = KrOrderType.market
    · have hskip : ¬(r.order ≠ KrOrderType.market ∨ r.deal = KrDealType.unknown) := by
        push_neg
        exact ⟨hor, hr⟩
      rw [if_neg hskip]
      have hkeep : (decide (r.order = KrOrderType.market) &&
          (decide (r.deal = KrDealType.buy) || decide (r.deal = KrDealType.sell))) = true := by
        rcases hdeal with hd | hd <;> simp [hor, hd]
      rw [if_pos hkeep]
      rw [List.map_cons]
      have ihr := ih hrest
      unfold spec_emitted_trades at ihr
      rw [ihr]
    · have hskip : r.order ≠ KrOrderType.market ∨ r.deal = KrDealType.unknown :=
        Or.inl hor
      rw [if_pos hskip]
      have hdrop : (decide (r.order = KrOrderType.market) &&
          (decide (r.deal = KrDealType.buy) || decide (r.deal = KrDealType.sell))) = false := by
        simp [hor]
      rw [if_neg (by simp [hdrop])]
      have ihr := ih hrest
      unfold spec_emitted_trades at ihr
      rw [ihr]

/-- C3: a Kraken trades poll with cursor 0 emits nothing and just adopts
the response's `last` cursor; any later poll emits exactly the returned
records whose order-type field parsed to market (`"m"`) and whose direction
parsed to buy (`"b"`) or sell (`"s"`), in order, and every returned record
of a parsed response indeed carries a known direction and order type. -/
theorem kraken_trades_poll_claim (symbol : String) (wire : List JVal)
    (last since : ℕ) (resp : GetTradesResponse)
    (h : get_trades_parse wire last = some resp) :
    kraken_trades_poll_step symbol 0 resp = (last, []) ∧
    (since ≠ 0 → kraken_trades_poll_step symbol since resp =
      (last, spec_emitted_trades symbol resp.records)) ∧
    (∀ r ∈ resp.records,
      r.deal ≠ KrDealType.unknown ∧ r.order ≠ KrOrderType.unknown ∧
        0 < r.price ∧ 0 < r.volume) := by
  obtain ⟨rs, hrs, hresp⟩ : ∃ rs, wire.mapM parse_trade_item = some rs ∧
      resp = ⟨rs.filter trade_record_kept, last⟩ := by
    unfold get_trades_parse at h
    cases hm : wire.mapM parse_trade_item with
    | none => rw [hm] at h; exact absurd h (by simp)
    | some rs =>
      rw [hm] at h
      exact ⟨rs, rfl, (Option.some.inj h).symm⟩
  subst hresp
  have hall : ∀ r ∈ rs.filter trade_record_kept,
      r.deal ≠ KrDealType.unknown ∧ r.order ≠ KrOrderType.unknown ∧
        0 < r.price ∧ 0 < r.volume := by
    intro r hrmem
    rw [List.mem_filter] at hrmem
    have hkept := hrmem.2
    unfold trade_record_kept at hkept
    simp only [Bool.and_eq_true, decide_eq_true_eq, bne_iff_ne, ne_eq] at hkept
    obtain ⟨⟨⟨⟨hprice, hvol⟩, -⟩, hdeal⟩, horder⟩ := hkept
    exact ⟨hdeal, horder, hprice, hvol⟩
  refine ⟨rfl, ?_, hall⟩
  intro hs
  unfold kraken_trades_poll_step
  rw [if_neg hs]
  have := filterMap_emit_eq_spec symbol (rs.filter trade_record_kept)
    (fun r hr => (hall r hr).1)
  rw [this]

/-- Witness for C3: the spec's bootstrap scenario — a first poll adopting
`last = 10` without emitting, then a second poll emitting the single market
buy record. -/
theorem kraken_trades_poll_claim_witness :
    kraken_trades_poll_step "XXBTZUSD" 0
        ⟨[⟨100, 2, 2000, KrDealType.buy, KrOrderType.market, ""⟩], 10⟩ =
      (10, []) ∧
    kraken_trades_poll_step "XXBTZUSD" 10
        ⟨[⟨100, 2, 2000, KrDealType.buy, KrOrderType.market, ""⟩], 11⟩ =
      (11, [⟨"XXBTZUSD", 100, 2, 2000, TakerSide.buy⟩]) := by
  have hp : ∀ lastv : ℕ, get_trades_parse
      [JVal.arr [JVal.num 100, JVal.num 2, JVal.num 2, JVal.str "b",
        JVal.str "m", JVal.str ""]] lastv =
      some ⟨[⟨100, 2, 2000, KrDealType.buy, KrOrderType.market, ""⟩], lastv⟩ := by
    intro lastv
    unfold get_trades_parse
    simp only [List.mapM_cons, List.mapM_nil, parse_trade_item]
    norm_num [JVal.iterVals, get_double, make_timestamp, bind, pure,
      JVal.asString, kr_deal_of_wire, kr_order_of_wire]
    rfl
  have h1 := kraken_trades_poll_claim "XXBTZUSD"
    [JVal.arr [JVal.num 100, JVal.num 2, JVal.num 2, JVal.str "b",
      JVal.str "m", JVal.str ""]] 10 0
    ⟨[⟨100, 2, 2000, KrDealType.buy, KrOrderType.market, ""⟩], 10⟩ (hp 10)
  have h2 := kraken_trades_poll_claim "XXBTZUSD"
    [JVal.arr [JVal.num 100, JVal.num 2, JVal.num 2, JVal.str "b",
      JVal.str "m", JVal.str ""]] 11 10
    ⟨[⟨100, 2, 2000, KrDealType.buy, KrOrderType.market, ""⟩], 11⟩ (hp 11)
  refine ⟨h1.1, ?_⟩
  rw [h2.2.1 (by norm_num)]
  rfl

/-- Counterexample for C1: a wire trade whose timestamp field is 1 second
is emitted with timestamp 1000 (milliseconds), not 1 × 10⁶ as the claim
states. -/
theorem kraken_trades_timestamp_counterexample :
    get_trades_parse
        [JVal.arr [JVal.num 100, JVal.num 2, JVal.num 1, JVal.str "b",
          JVal.str "m", JVal.str ""]] 11 =
      some ⟨[⟨100, 2, 1000, KrDealType.buy, KrOrderType.market, ""⟩], 11⟩ ∧
    kraken_trades_poll_step "XXBTZUSD" 5
        ⟨[⟨100, 2, 1000, KrDealType.buy, KrOrderType.market, ""⟩], 11⟩ =
      (11, [⟨"XXBTZUSD", 100, 2, 1000, TakerSide.buy⟩]) ∧
    (1000 : ℕ) ≠ 1 * 1000000 := by
  refine ⟨?_, by rfl, by norm_num⟩
  unfold get_trades_parse
  simp only [List.mapM_cons, List.mapM_nil, parse_trade_item]
  norm_num [JVal.iterVals, get_double, make_timestamp, bind, pure,
    JVal.asString, kr_deal_of_wire, kr_order_of_wire]
  rfl

/-- C1 (amended): every record emitted by the Kraken trades poller carries
the timestamp produced by `make_timestamp`, i.e. the wire seconds value
multiplied by 1000 once (milliseconds, truncated), and the poll loop passes
record timestamps to the trade handler unchanged. -/
theorem kraken_trades_timestamp_ms (p0 v0 q : ℚ) (s3 s4 s5 : String)
    (r : TradeRecord) (symbol : String) (since : ℕ) (resp : GetTradesResponse)
    (h : parse_trade_item
      (.arr [.num p0, .num v0, .num q, .str s3, .str s4, .str s5]) = some r)
    (hs : since ≠ 0) :
    r.timestamp = (⌊q * 1000⌋).toNat ∧
    ∀ e ∈ (kraken_trades_poll_step symbol since resp).2,
      ∃ rr ∈ resp.records, e.timestamp = rr.timestamp := by
  constructor
  · have heval : parse_trade_item
        (.arr [.num p0, .num v0, .num q, .str s3, .str s4, .str s5]) =
        some ⟨p0, v0, make_timestamp q, kr_deal_of_wire s3,
          kr_order_of_wire s4, s5⟩ := rfl
    rw [heval] at h
    have hr := Option.some.inj h
    rw [← hr]
    rfl
  · intro e he
    unfold kraken_trades_poll_step at he
    rw [if_neg hs] at he
    simp only at he
    rw [List.mem_filterMap] at he
    obtain ⟨rr, hrr, hmap⟩ := he
    refine ⟨rr, hrr, ?_⟩
    by_cases hcond : rr.order ≠ KrOrderType.market ∨ rr.deal = KrDealType.unknown
    · rw [if_pos hcond] at hmap
      exact absurd hmap (by simp)
    · rw [if_neg hcond] at hmap
      have := Option.some.inj hmap
      rw [← this]

/-- Witness for C1 (amended): the concrete emitted record of the
counterexample run indeed carries 1 s × 1000 = 1000 µs-claimed-but-ms. -/
theorem kraken_trades_timestamp_ms_witness :
    (⟨100, 2, 1000, KrDealType.buy, KrOrderType.market, ""⟩ : TradeRecord).timestamp =
      (⌊(1 : ℚ) * 1000⌋).toNat := by
  have h := kraken_trades_timestamp_ms 100 2 1 "b" "m" ""
    ⟨100, 2, 1000, KrDealType.buy, KrOrderType.market, ""⟩ "XXBTZUSD" 5
    ⟨[], 0⟩ ?_ (by norm_num)
  · exact h.1
  · unfold parse_trade_item
    norm_num [JVal.iterVals, get_double, make_timestamp, bind, pure,
      JVal.asString, kr_deal_of_wire, kr_order_of_wire]
    rfl

/-- C10: a Kraken book poll whose filtered response has an empty side
leaves the stored maps unchanged and emits nothing; when both filtered
sides are non-empty the stored book is replaced (independently of the
previous state) and emission is decided by the consistency check; and every
filtered record has positive price and volume. -/
theorem kraken_book_poll_effect (symbol : String) (st st2 : BookState)
    (aw bw : List JVal) (resp : GetOrderBookResponse)
    (h : get_order_book_parse aw bw = some resp) :
    ((resp.asks = [] ∨ resp.bids = []) →
      kraken_book_poll_step symbol st resp = (st, none)) ∧
    (resp.asks ≠ [] → resp.bids ≠ [] →
      (kraken_book_poll_step symbol st resp).1 =
        ⟨build_order_map resp.asks, build_order_map resp.bids⟩ ∧
      (kraken_book_poll_step symbol st resp).1 =
        (kraken_book_poll_step symbol st2 resp).1 ∧
      (kraken_book_poll_step symbol st resp).2 =
        (handleOrderBookIfConsistent symbol (build_order_map resp.asks)
          (build_order_map resp.bids)).1) ∧
    (∀ r ∈ resp.asks, 0 < r.price ∧ 0 < r.volume) ∧
    (∀ r ∈ resp.bids, 0 < r.price ∧ 0 < r.volume) := by
  have hrecords : ∀ (ws : List JVal) (out : List OrderBookRecord),
      parse_order_book_records ws = some out →
      ∀ r ∈ out, 0 < r.price ∧ 0 < r.volume := by
    intro ws out hout r hr
    simp only [parse_order_book_records, Option.map_eq_some'] at hout
    obtain ⟨rs, -, hfil⟩ := hout
    subst hfil
    rw [List.mem_filter] at hr
    have := hr.2
    simp only [Bool.and_eq_true, decide_eq_true_eq] at this
    exact this
  have hresp : parse_order_book_records aw = some resp.asks ∧
      parse_order_book_records bw = some resp.bids := by
    simp only [get_order_book_parse, bind, Option.bind_eq_some] at h
    obtain ⟨asks, ha, h2⟩ := h
    obtain ⟨bids, hb, h3⟩ := h2
    simp only [pure, Option.some_inj] at h3
    subst h3
    exact ⟨ha, hb⟩
  refine ⟨?_, ?_, hrecords aw resp.asks hresp.1, hrecords bw resp.bids hresp.2⟩
  · intro hempty
    have : ¬(resp.asks ≠ [] ∧ resp.bids ≠ []) := by
      rcases hempty with h1 | h1 <;> simp [h1]
    simp [kraken_book_poll_step, if_neg this]
  · intro ha hb
    have hcond : resp.asks ≠ [] ∧ resp.bids ≠ [] := ⟨ha, hb⟩
    simp [kraken_book_poll_step, if_pos hcond]

/-- Witness for C10: a concrete empty-bids response leaves a concrete
stored book untouched. -/
theorem kraken_book_poll_effect_witness :
    kraken_book_poll_step "XXBTZUSD" ⟨[((2 : ℚ), (1 : ℚ))], [((1 : ℚ), (1 : ℚ))]⟩
      ⟨[⟨3, 1, 0⟩], []⟩ =
      (⟨[((2 : ℚ), (1 : ℚ))], [((1 : ℚ), (1 : ℚ))]⟩, none) := by
  have h := kraken_book_poll_effect "XXBTZUSD"
    ⟨[((2 : ℚ), (1 : ℚ))], [((1 : ℚ), (1 : ℚ))]⟩ ⟨[], []⟩
    [JVal.arr [JVal.num 3, JVal.num 1]] [] ⟨[⟨3, 1, 0⟩], []⟩ ?_
  · exact h.1 (Or.inr rfl)
  · simp only [get_order_book_parse, parse_order_book_records, parse_order_book_item]
    norm_num [JVal.iterVals, get_double, make_timestamp, bind, pure, trade_record_kept]
    rfl

/-! ## ISO-8601 timestamps (`timestamp_parser.hpp`)

`details::parse_iso_timestamp` scans `"%u-%u-%uT%u:%u:%u.%uZ"` with
`sscanf`, requires at least six fields, fills a `struct tm` and converts it
with `timegm`; the fractional field defaults to 0. -/

/-- Reads a maximal run of decimal digits, modelling one `%u` conversion
(`none` when no digit is present, which stops the `sscanf` scan). -/
def read_uint (cs : List Char) : Option (ℕ × List Char) :=
  let ds := cs.takeWhile Char.isDigit
  if ds.isEmpty then none
  else some (digitsToNat ds, cs.dropWhile Char.isDigit)

/-- Consumes one expected literal character of the scan format. -/
def expect_char (c : Char) (cs : List Char) : Option (List Char) :=
  match cs with
  | d :: rest => if d = c then some rest else none
  | [] => none

/-- Models the `sscanf(iso_time, "%u-%u-%uT%u:%u:%u.%uZ", …)` call: the
seven numeric fields in order; the scan fails (fewer than six conversions,
so the C++ code throws) when any of the first six is missing, while a
missing fractional part leaves the zero-initialized field. -/
def scan_iso_fields (s : String) :
    Option (ℕ × ℕ × ℕ × ℕ × ℕ × ℕ × ℕ) := do
  let cs := s.data
  let (y, cs) ← read_uint cs
  let cs ← expect_char '-' cs
  let (mo, cs) ← read_uint cs
  let cs ← expect_char '-' cs
  let (d, cs) ← read_uint cs
  let cs ← expect_char 'T' cs
  let (h, cs) ← read_uint cs
  let cs ← expect_char ':' cs
  let (mi, cs) ← read_uint cs
  let cs ← expect_char ':' cs
  let (sec, cs) ← read_uint cs
  let f : ℕ :=
    match expect_char '.' cs with
    | some cs2 =>
      match read_uint cs2 with
      | some fr => fr.1
      | none => 0
    | none => 0
  pure (y, mo, d, h, mi, sec, f)

/-- Days between a proleptic-Gregorian civil date (month already normalized
to `1..12`) and 1970-01-01; the standard civil-from-days era computation
that `timegm` performs. -/
def days_from_civil (y m d : ℤ) : ℤ :=
  let y2 := if m ≤ 2 then y - 1 else y
  let era := Int.fdiv y2 400
  let yoe := y2 - era * 400
  let mp := (m + 9) % 12
  let doy := (153 * mp + 2) / 5 + d - 1
  let doe := yoe * 365 + yoe / 4 - yoe / 100 + doy
  era * 146097 + doe - 719468

/-- Models `timegm` on the `struct tm` the parser fills: the stored
`tm_year + 1900` is the scanned year and `tm_mon` the zero-based month
(normalized into the year for out-of-range values, as glibc does). -/
def timegm_model (year mon0 mday hour minute sec : ℤ) : ℤ :=
  let y := year + Int.fdiv mon0 12
  let m := Int.emod mon0 12 + 1
  days_from_civil y m mday * 86400 + hour * 3600 + minute * 60 + sec

/-- Models `timestamp_parser::details::parse_iso_timestamp`: seconds since
the epoch paired with the raw fractional field; `none` models the two
throwing paths (scan failure and negative `timegm` result). -/
def parse_iso_timestamp (s : String) : Option (ℕ × ℕ) := do
  let (y, mo, d, h, mi, sec, f) ← scan_iso_fields s
  let t : ℤ := timegm_model (y : ℤ) ((mo : ℤ) - 1) (d : ℤ) (h : ℤ) (mi : ℤ) (sec : ℤ)
  if t < 0 then none else pure (t.toNat, f)

/-- Models `parse_iso_timestamp_with_microseconds`. -/
def parse_iso_timestamp_with_microseconds (s : String) : Option ℕ :=
  (parse_iso_timestamp s).map fun p => p.1 * 1000000 + p.2

/-- Models `parse_iso_timestamp_with_milliseconds`. -/
def parse_iso_timestamp_with_milliseconds (s : String) : Option ℕ :=
  (parse_iso_timestamp s).map fun p => (p.1 * 1000 + p.2) * 1000

/-! ## Coinbase matches channel (`coinbase_market_data_subscriber.hpp`) -/

/-- Result of running one exchange message handler: no effect, a requested
session restart, a propagated exception, or an emitted trade. -/
inductive HandlerOutcome where
  | ignored
  | restart
  | errorOut
  | emit (e : TradeEvent)
deriving DecidableEq

/-- Models `coinbase_market_data_subscriber::matches_event_handler`: check
`product_id` against the subscribed symbol (mismatch requests a restart),
map the resting `side` to the opposite taker side (anything else throws),
read `price`/`size` through `get_double` and the ISO `time` field in
microseconds, then hand the trade to the trade handler. -/
def coinbase_matches_event_handler (symbol : String) (msg : JVal) :
    HandlerOutcome :=
  if ¬ msg.isObject then .ignored
  else
    match msg.find "product_id" with
    | none => .errorOut
    | some pid =>
      if ¬ pid.eqStr symbol then .restart
      else
        match (msg.find "side").bind JVal.asString with
        | none => .errorOut
        | some side =>
          let deal? : Option TakerSide :=
            if side = "buy" then some .sell
            else if side = "sell" then some .buy
            else none
          match deal? with
          | none => .errorOut
          | some deal =>
            match (msg.find "time").bind JVal.asString with
            | none => .errorOut
            | some iso_time =>
              match (msg.find "price").bind get_double,
                  (msg.find "size").bind get_double with
              | some price, some volume =>
                match parse_iso_timestamp_with_microseconds iso_time with
                | none => .errorOut
                | some ts => .emit ⟨symbol, price, volume, ts, deal⟩
              | some _, none => .errorOut
              | none, _ => .errorOut

/-- The spec's scenario-2 Coinbase match message. -/
def coinbase_scenario_msg : JVal :=
  .obj [("type", .str "match"), ("product_id", .str "BTC-USD"),
    ("side", .str "buy"), ("price", .str "100.5"), ("size", .str "0.1"),
    ("time", .str "2022-01-02T03:04:05.678901Z")]

/-- Evaluation of `std::stod` on the scenario price string. -/
theorem stodQ_price_scenario : stodQ "100.5" = some (201/2) := by
  have h1 : stodQ "100.5" =
      some (1 * ((digitsToNat "100".data : ℚ) +
        (digitsToNat "5".data : ℚ) / ((10 : ℚ) ^ ("5".data).length)) *
          (10 : ℚ) ^ (0 : ℤ)) := rfl
  rw [h1]
  have h2 : digitsToNat "100".data = 100 := by decide
  have h3 : digitsToNat "5".data = 5 := by decide
  rw [h2, h3]
  norm_num

/-- Evaluation of `std::stod` on the scenario size string. -/
theorem stodQ_size_scenario : stodQ "0.1" = some (1/10) := by
  have h1 : stodQ "0.1" =
      some (1 * ((digitsToNat "0".data : ℚ) +
        (digitsToNat "1".data : ℚ) / ((10 : ℚ) ^ ("1".data).length)) *
          (10 : ℚ) ^ (0 : ℤ)) := rfl
  rw [h1]
  have h2 : digitsToNat "0".data = 0 := by decide
  have h3 : digitsToNat "1".data = 1 := by decide
  rw [h2, h3]
  norm_num

/-- Evaluation of the scenario ISO time: 2022-01-02T03:04:05.678901Z is
1641092645678901 µs after the epoch. -/
theorem iso_scenario_eval : parse_iso_timestamp_with_microseconds
    "2022-01-02T03:04:05.678901Z" = some 1641092645678901 := by decide

/-- Evaluation of the Coinbase matches handler on the scenario message. -/
theorem coinbase_scenario_eval :
    coinbase_matches_event_handler "BTC-USD" coinbase_scenario_msg =
      .emit ⟨"BTC-USD", 201/2, 1/10, 1641092645678901, .sell⟩ := by
  have hstep : coinbase_matches_event_handler "BTC-USD" coinbase_scenario_msg =
      (match stodQ "100.5", stodQ "0.1" with
       | some price, some volume =>
         match parse_iso_timestamp_with_microseconds
             "2022-01-02T03:04:05.678901Z" with
         | none => HandlerOutcome.errorOut
         | some ts =>
           HandlerOutcome.emit ⟨"BTC-USD", price, volume, ts, TakerSide.sell⟩
       | some _, none => HandlerOutcome.errorOut
       | none, _ => HandlerOutcome.errorOut) := rfl
  rw [hstep, stodQ_price_scenario, stodQ_size_scenario, iso_scenario_eval]

/-- C4: every trade a Coinbase match message emits carries the subscribed
symbol, the taker side opposite to the message's `side` field, the
`price`/`size` values as `get_double` reads them (numeric or string), and
the ISO time as seconds × 10⁶ plus the fractional field; and the spec's
scenario-2 message emits `(BTC-USD, 100.5, 0.1, 1641092645678901, sell)`. -/
theorem coinbase_match_claim (symbol : String) (msg : JVal) (e : TradeEvent)
    (h : coinbase_matches_event_handler symbol msg = .emit e) :
    (e.symbol = symbol ∧
      ((msg.find "side").bind JVal.asString = some "buy" → e.side = .sell) ∧
      ((msg.find "side").bind JVal.asString = some "sell" → e.side = .buy) ∧
      (∀ q, (msg.find "price").bind get_double = some q → e.price = q) ∧
      (∀ q, (msg.find "size").bind get_double = some q → e.volume = q) ∧
      (∀ iso sec frac, (msg.find "time").bind JVal.asString = some iso →
        parse_iso_timestamp iso = some (sec, frac) →
        e.timestamp = sec * 1000000 + frac)) ∧
    coinbase_matches_event_handler "BTC-USD" coinbase_scenario_msg =
      .emit ⟨"BTC-USD", 201/2, 1/10, 1641092645678901, .sell⟩ := by
  refine ⟨?_, coinbase_scenario_eval⟩
  unfold coinbase_matches_event_handler at h
  by_cases hobj : msg.isObject
  · rw [if_neg (by simp [hobj])] at h
    cases hpid : msg.find "product_id" with
    | none => rw [hpid] at h; exact absurd h (by simp)
    | some pid =>
      simp only [hpid] at h
      by_cases hsym : pid.eqStr symbol
      · rw [if_neg (by simp [hsym])] at h
        cases hside : (msg.find "side").bind JVal.asString with
        | none => rw [hside] at h; exact absurd h (by simp)
        | some side =>
          simp only [hside] at h
          by_cases hbuy : side = "buy"
          · subst hbuy
            simp only [if_pos rfl] at h
            cases htime : (msg.find "time").bind JVal.asString with
            | none => rw [htime] at h; exact absurd h (by simp)
            | some iso =>
              simp only [htime] at h
              cases hprice : (msg.find "price").bind get_double with
              | none => rw [hprice] at h; exact absurd h (by simp)
              | some price =>
                simp only [hprice] at h
                cases hsize : (msg.find "size").bind get_double with
                | none => rw [hsize] at h; exact absurd h (by simp)
                | some volume =>
                  simp only [hsize] at h
                  cases hts : parse_iso_timestamp_with_microseconds iso with
                  | none => rw [hts] at h; exact absurd h (by simp)
                  | some ts =>
                    simp only [hts] at h
                    have he := HandlerOutcome.emit.inj h
                    subst he
                    refine ⟨rfl, fun _ => rfl, ?_, ?_, ?_, ?_⟩
                    · intro hcontr
                      exact absurd (Option.some.inj hcontr) (by decide)
                    · intro q hq
                      exact Option.some.inj hq
                    · intro q hq
                      exact Option.some.inj hq
                    · intro iso2 sec frac hiso hparse
                      have : iso2 = iso := (Option.some.inj hiso).symm
                      subst this
                      unfold parse_iso_timestamp_with_microseconds at hts
                      rw [hparse] at hts
                      exact (Option.some.inj hts).symm
          · by_cases hsell : side = "sell"
            · subst hsell
              have hne1 : (("sell" : String) = "buy") = False := eq_false (by decide)
              simp only [hne1, if_false, eq_self_iff_true, if_true] at h
              cases htime : (msg.find "time").bind JVal.asString with
              | none => rw [htime] at h; exact absurd h (by simp)
              | some iso =>
                simp only [htime] at h
                cases hprice : (msg.find "price").bind get_double with
                | none => rw [hprice] at h; exact absurd h (by simp)
                | some price =>
                  simp only [hprice] at h
                  cases hsize : (msg.find "size").bind get_double with
                  | none => rw [hsize] at h; exact absurd h (by simp)
                  | some volume =>
                    simp only [hsize] at h
                    cases hts : parse_iso_timestamp_with_microseconds iso with
                    | none => rw [hts] at h; exact absurd h (by simp)
                    | some ts =>
                      simp only [hts] at h
                      have he := HandlerOutcome.emit.inj h
                      subst he
                      refine ⟨rfl, ?_, fun _ => rfl, ?_, ?_, ?_⟩
                      · intro hcontr
                        exact absurd (Option.some.inj hcontr) (by decide)
                      · intro q hq
                        exact Option.some.inj hq
                      · intro q hq
                        exact Option.some.inj hq
                      · intro iso2 sec frac hiso hparse
                        have : iso2 = iso := (Option.some.inj hiso).symm
                        subst this
                        unfold parse_iso_timestamp_with_microseconds at hts
                        rw [hparse] at hts
                        exact (Option.some.inj hts).symm
            · rw [if_neg hbuy, if_neg hsell] at h
              exact absurd h (by simp)
      · rw [if_pos (by simp [hsym])] at h
        exact absurd h (by simp)
  · rw [if_pos (by simp [hobj])] at h
    exact absurd h (by simp)

/-- Witness for C4: the scenario-2 message run through the claim theorem,
extracting the emitted trade and its opposite-side mapping. -/
theorem coinbase_match_claim_witness :
    coinbase_matches_event_handler "BTC-USD" coinbase_scenario_msg =
      .emit ⟨"BTC-USD", 201/2, 1/10, 1641092645678901, .sell⟩ ∧
    (⟨"BTC-USD", 201/2, 1/10, 1641092645678901, .sell⟩ : TradeEvent).side =
      .sell := by
  have h := coinbase_match_claim "BTC-USD" coinbase_scenario_msg
    ⟨"BTC-USD", 201/2, 1/10, 1641092645678901, .sell⟩ coinbase_scenario_eval
  exact ⟨h.2, h.1.2.1 rfl⟩

/-! ## Bitfinex book channel (`bitfinex_market_data_subscriber.hpp`) -/

/-- Applies one Bitfinex book triplet to the two maps, mirroring the body
of the `parse` lambda once the three numbers are extracted (`count` is read
with `get<unsigned int>`). -/
def bitfinex_apply_level (st : BookState) (price : ℚ) (count : ℕ)
    (amount : ℚ) : BookState :=
  if 0 < count then
    (if 0 < amount then { st with bids := omSet st.bids price amount }
     else if amount < 0 then { st with asks := omSet st.asks price (-amount) }
     else st)
  else if count = 0 then
    (if amount = 1 then { st with bids := omErase st.bids price }
     else if amount = -1 then { st with asks := omErase st.asks price }
     else st)
  else st

/-- Models the `parse` lambda of
`bitfinex_market_data_subscriber::order_book_event_handler`: succeeds (and
possibly mutates the maps) exactly on a 3-element container of numbers. -/
def bitfinex_parse_update (st : BookState) (v : JVal) : BookState × Bool :=
  if v.size ≠ 3 then (st, false)
  else
    match v.at 0, v.at 1, v.at 2 with
    | .num price, .num countQ, .num amount =>
      (bitfinex_apply_level st price (⌊countQ⌋.toNat) amount, true)
    | _, _, _ => (st, false)

/-- Models `bitfinex_market_data_subscriber::order_book_event_handler` on
the routed data payload (the frame with the channel id stripped): a single
update triplet is applied in place, anything else non-empty is treated as a
snapshot — both sides are cleared and each element is parsed in turn. -/
def bitfinex_order_book_event_handler (st : BookState) (payload : JVal) :
    BookState :=
  if ¬ payload.isArray then st
  else
    if ¬ (payload.at 0).isArray then st
    else
      if (payload.at 0).elems.isEmpty then st
      else
        if (bitfinex_parse_update st (payload.at 0)).2 then
          (bitfinex_parse_update st (payload.at 0)).1
        else
          (payload.at 0).elems.foldl
            (fun s item => (bitfinex_parse_update s item).1) ⟨[], []⟩

/-- The success flag of the Bitfinex triplet parse does not depend on the
book state. -/
theorem bitfinex_parse_update_flag (st st2 : BookState) (v : JVal) :
    (bitfinex_parse_update st v).2 = (bitfinex_parse_update st2 v).2 := by
  unfold bitfinex_parse_update
  by_cases h : v.size ≠ 3
  · rw [if_pos h, if_pos h]
  · rw [if_neg h, if_neg h]
    cases h0 : v.at 0 <;> cases h1 : v.at 1 <;> cases h2 : v.at 2 <;> rfl

/-- C5: a Bitfinex triplet `[price, count, amount]` sets `bids[price] =
amount` when `count > 0 ∧ amount > 0`, sets `asks[price] = -amount` when
`count > 0 ∧ amount < 0`, erases the bid level when `count = 0 ∧
amount = 1`, erases the ask level when `count = 0 ∧ amount = -1`; and an
array-of-triplets payload (a snapshot, i.e. anything the single-triplet
parse rejects) clears both sides before applying its elements in turn. -/
theorem bitfinex_book_update_claim (st : BookState) (p a : ℚ) (c : ℕ)
    (ts : List JVal) (htne : ts ≠ [])
    (hts : (bitfinex_parse_update ⟨[], []⟩ (.arr ts)).2 = false) :
    (0 < c → 0 < a →
      bitfinex_order_book_event_handler st
          (.arr [.arr [.num p, .num (c : ℚ), .num a]]) =
        ⟨st.asks, omSet st.bids p a⟩) ∧
    (0 < c → a < 0 →
      bitfinex_order_book_event_handler st
          (.arr [.arr [.num p, .num (c : ℚ), .num a]]) =
        ⟨omSet st.asks p (-a), st.bids⟩) ∧
    (c = 0 → a = 1 →
      bitfinex_order_book_event_handler st
          (.arr [.arr [.num p, .num (c : ℚ), .num a]]) =
        ⟨st.asks, omErase st.bids p⟩) ∧
    (c = 0 → a = -1 →
      bitfinex_order_book_event_handler st
          (.arr [.arr [.num p, .num (c : ℚ), .num a]]) =
        ⟨omErase st.asks p, st.bids⟩) ∧
    bitfinex_order_book_event_handler st (.arr [.arr ts]) =
      ts.foldl (fun s item => (bitfinex_parse_update s item).1) ⟨[], []⟩ := by
  have hcount : (⌊((c : ℚ))⌋).toNat = c := by
    rw [Int.floor_natCast]
    omega
  have hstep : bitfinex_order_book_event_handler st
      (.arr [.arr [.num p, .num (c : ℚ), .num a]]) =
      bitfinex_apply_level st p ((⌊((c : ℚ))⌋).toNat) a := rfl
  rw [hstep, hcount]
  have hsnap : bitfinex_order_book_event_handler st (.arr [.arr ts]) =
      (if ts.isEmpty then st
       else if (bitfinex_parse_update st (.arr ts)).2 then
         (bitfinex_parse_update st (.arr ts)).1
       else ts.foldl (fun s item => (bitfinex_parse_update s item).1)
         ⟨[], []⟩) := rfl
  have hne : ts.isEmpty = false := by
    cases ts with
    | nil => exact absurd rfl htne
    | cons x xs => rfl
  have hflag : (bitfinex_parse_update st (.arr ts)).2 = false := by
    rw [bitfinex_parse_update_flag st ⟨[], []⟩]
    exact hts
  refine ⟨?_, ?_, ?_, ?_, ?_⟩
  · intro hc ha
    unfold bitfinex_apply_level
    rw [if_pos hc, if_pos ha]
  · intro hc ha
    unfold bitfinex_apply_level
    rw [if_pos hc, if_neg (not_lt.mpr (le_of_lt ha)), if_pos ha]
  · intro hc ha
    unfold bitfinex_apply_level
    rw [if_neg (by omega), if_pos hc, if_pos ha]
  · intro hc ha
    unfold bitfinex_apply_level
    subst ha
    rw [if_neg (by omega), if_pos hc, if_neg (by norm_num), if_pos rfl]
  · rw [hsnap]
    simp [hne, hflag]

/-- Witness for C5: the spec's scenario 3 — after `bids[100] = 1`, the
triplet `[100, 0, 1]` removes the bid level. -/
theorem bitfinex_book_update_claim_witness :
    bitfinex_order_book_event_handler ⟨[], [((100 : ℚ), (1 : ℚ))]⟩
        (.arr [.arr [.num 100, .num ((0 : ℕ) : ℚ), .num 1]]) = ⟨[], []⟩ := by
  have h := bitfinex_book_update_claim ⟨[], [((100 : ℚ), (1 : ℚ))]⟩ 100 1 0
    [JVal.null] (by simp) rfl
  rw [h.2.2.1 rfl rfl]
  norm_num [omErase]

/-! ## BitMEX orderBook10 channel (`bitmex_market_data_subscriber.hpp`) -/

/-- Models the `parse_book_records` lambda of
`bitmex_market_data_subscriber::level2_top10_event_handler`: non-arrays and
entries that are not `[price, size]` pairs are skipped; a level with
`volume = size / price` is emplaced when `price != 0`; a non-numeric field
throws (`none`). -/
def bitmex_parse_book_records (records : List JVal) (book : OrderMap) :
    Option OrderMap :=
  records.foldlM
    (fun m r =>
      if ¬ r.isArray then pure m
      else if r.elems.length ≠ 2 then pure m
      else do
        let price ← (r.elems.getD 0 .null).asNum
        let size ← (r.elems.getD 1 .null).asNum
        pure (if price ≠ 0 then omEmplace m price (size / price) else m))
    book

/-- Per-record step of the BitMEX `orderBook10` handler: skip records of
other symbols, otherwise fill both sides from the record's `asks` and
`bids` arrays. -/
def bitmex_record_step (symbol : String) (s : BookState) (record : JVal) :
    Option BookState :=
  match record.find "symbol" with
  | none => none
  | some sym =>
    if ¬ sym.eqStr symbol then pure s
    else do
      let newAsks ← bitmex_parse_book_records
        ((record.find "asks").getD .null).iterVals s.asks
      let newBids ← bitmex_parse_book_records
        ((record.find "bids").getD .null).iterVals s.bids
      pure (⟨newAsks, newBids⟩ : BookState)

/-- Models `bitmex_market_data_subscriber::level2_top10_event_handler`:
only `action == "update"` frames are consumed; both sides are cleared and
every matching data record's `[price, notional]` entries are inserted with
`volume = notional / price`; `none` models a propagated exception. -/
def bitmex_level2_top10_event_handler (symbol : String) (st : BookState)
    (msg : JVal) : Option BookState :=
  if ¬ msg.isObject then some st
  else
    match msg.find "action" with
    | none => some st
    | some av =>
      match av.asString with
      | none => none
      | some action =>
        if action ≠ "update" then some st
        else
          match msg.find "data" with
          | none => none
          | some data =>
            if ¬ data.isArray then none
            else data.elems.foldlM (bitmex_record_step symbol) ⟨[], []⟩

/-- A value found in an object witnesses that the json is an object. -/
theorem jval_find_isObject {msg : JVal} {k : String} {v : JVal}
    (h : msg.find k = some v) : msg.isObject = true := by
  cases msg <;> simp [JVal.find, JVal.isObject] at h ⊢

/-- The spec's scenario-5 BitMEX frame generalized over the numbers: an
`action:"update"` message with one matching record holding one ask and one
bid entry. -/
def mk_bitmex_update (symbol : String) (ap asz bp bsz : ℚ) : JVal :=
  .obj [("table", .str "orderBook10"), ("action", .str "update"),
    ("data", .arr [.obj [("symbol", .str symbol),
      ("asks", .arr [.arr [.num ap, .num asz]]),
      ("bids", .arr [.arr [.num bp, .num bsz]])]])]

/-- Reduction of the record step on a matching record. -/
theorem bitmex_record_step_match (symbol : String) (s : BookState)
    (A B : JVal) :
    bitmex_record_step symbol s
        (.obj [("symbol", .str symbol), ("asks", A), ("bids", B)]) =
      (do
        let newAsks ← bitmex_parse_book_records A.iterVals s.asks
        let newBids ← bitmex_parse_book_records B.iterVals s.bids
        pure (⟨newAsks, newBids⟩ : BookState)) := by
  have hs : (JVal.str symbol).eqStr symbol = true := by
    simp [JVal.eqStr]
  have h1 : bitmex_record_step symbol s
      (.obj [("symbol", .str symbol), ("asks", A), ("bids", B)]) =
      (if ¬ (JVal.str symbol).eqStr symbol = true then pure s
       else do
        let newAsks ← bitmex_parse_book_records A.iterVals s.asks
        let newBids ← bitmex_parse_book_records B.iterVals s.bids
        pure (⟨newAsks, newBids⟩ : BookState)) := rfl
  rw [h1, hs]
  simp

/-- Evaluation of `parse_book_records` on one numeric entry with non-zero
price. -/
theorem bitmex_parse_records_single (m : OrderMap) (p sz : ℚ) (hp : p ≠ 0) :
    bitmex_parse_book_records [.arr [.num p, .num sz]] m =
      some (omEmplace m p (sz / p)) := by
  have h1 : bitmex_parse_book_records [.arr [.num p, .num sz]] m =
      ((pure (if p ≠ 0 then omEmplace m p (sz / p) else m) :
        Option OrderMap).bind (fun b => pure b)) := rfl
  rw [h1, if_pos hp]
  rfl

/-- A BitMEX `orderBook10` data record with the given symbol and
`[price, size]` entry lists. -/
def mk_bitmex_record (sym : String) (asks bids : List (ℚ × ℚ)) : JVal :=
  .obj [("symbol", .str sym),
    ("asks", .arr (asks.map fun e => JVal.arr [JVal.num e.1, JVal.num e.2])),
    ("bids", .arr (bids.map fun e => JVal.arr [JVal.num e.1, JVal.num e.2]))]

/-- A BitMEX `action:"update"` frame carrying the given data records. -/
def mk_bitmex_frame (records : List JVal) : JVal :=
  .obj [("table", .str "orderBook10"), ("action", .str "update"),
    ("data", .arr records)]

/-- The effect of `parse_book_records` on a list of `[price, size]` entry
pairs: each non-zero price is emplaced with `volume = size / price`. -/
def bitmex_level_entries (entries : List (ℚ × ℚ)) (book : OrderMap) :
    OrderMap :=
  entries.foldl (fun m e => if e.1 ≠ 0 then omEmplace m e.1 (e.2 / e.1) else m)
    book

/-- The effect of one data record on the cleared book: records of other
symbols are skipped, matching records fill both sides from their entry
lists. -/
def bitmex_apply_record (symbol : String) (s : BookState)
    (r : String × List (ℚ × ℚ) × List (ℚ × ℚ)) : BookState :=
  if r.1 = symbol then
    ⟨bitmex_level_entries r.2.1 s.asks, bitmex_level_entries r.2.2 s.bids⟩
  else s

/-- `emplace` never removes or modifies an existing binding. -/
theorem mem_omEmplace_of_mem :
    ∀ (m : OrderMap) (p v q w : ℚ), (q, w) ∈ m → (q, w) ∈ omEmplace m p v := by
  intro m
  induction m with
  | nil => intro p v q w h; simp at h
  | cons x rest ih =>
    intro p v q w h
    obtain ⟨k, u⟩ := x
    unfold omEmplace
    by_cases h1 : p < k
    · rw [if_pos h1]
      exact List.mem_cons_of_mem _ h
    · rw [if_neg h1]
      by_cases h2 : p = k
      · rw [if_pos h2]
        exact h
      · rw [if_neg h2]
        rcases List.mem_cons.mp h with hh | hh
        · exact List.mem_cons.mpr (Or.inl hh)
        · exact List.mem_cons_of_mem _ (ih p v q w hh)

/-- A key of `emplace m p v` is `p` or a key of `m`. -/
theorem mem_keys_omEmplace :
    ∀ (m : OrderMap) (p v x : ℚ),
      x ∈ omKeys (omEmplace m p v) → x = p ∨ x ∈ omKeys m := by
  intro m
  induction m with
  | nil =>
    intro p v x h
    simp [omEmplace, omKeys] at h
    exact Or.inl h
  | cons y rest ih =>
    intro p v x h
    obtain ⟨k, u⟩ := y
    unfold omEmplace at h
    by_cases h1 : p < k
    · rw [if_pos h1] at h
      simp only [omKeys, List.map_cons, List.mem_cons] at h ⊢
      tauto
    · rw [if_neg h1] at h
      by_cases h2 : p = k
      · rw [if_pos h2] at h
        exact Or.inr h
      · rw [if_neg h2] at h
        simp only [omKeys, List.map_cons, List.mem_cons] at h ⊢
        rcases h with h | h
        · tauto
        · rcases ih p v x (by simpa [omKeys] using h) with h3 | h3
          · exact Or.inl h3
          · exact Or.inr (Or.inr (by simpa [omKeys] using h3))

/-- Emplacing an absent key makes the binding present. -/
theorem mem_omEmplace_self :
    ∀ (m : OrderMap) (p v : ℚ), p ∉ omKeys m → (p, v) ∈ omEmplace m p v := by
  intro m
  induction m with
  | nil => intro p v _; exact List.mem_singleton.mpr rfl
  | cons y rest ih =>
    intro p v h
    obtain ⟨k, u⟩ := y
    simp only [omKeys, List.map_cons, List.mem_cons, not_or] at h
    unfold omEmplace
    by_cases h1 : p < k
    · rw [if_pos h1]
      exact List.mem_cons.mpr (Or.inl rfl)
    · rw [if_neg h1, if_neg h.1]
      exact List.mem_cons_of_mem _ (ih p v (by simpa [omKeys] using h.2))

/-- `parse_book_records` on a list of numeric pairs equals the entry-level
fold. -/
theorem bitmex_parse_records_entries :
    ∀ (entries : List (ℚ × ℚ)) (book : OrderMap),
      bitmex_parse_book_records
          (entries.map fun e => JVal.arr [JVal.num e.1, JVal.num e.2]) book =
        some (bitmex_level_entries entries book) := by
  intro entries
  induction entries with
  | nil => intro book; rfl
  | cons e es ih =>
    intro book
    have hstep : bitmex_parse_book_records
        ((e :: es).map fun x => JVal.arr [JVal.num x.1, JVal.num x.2]) book =
        bitmex_parse_book_records
          (es.map fun x => JVal.arr [JVal.num x.1, JVal.num x.2])
          (if e.1 ≠ 0 then omEmplace book e.1 (e.2 / e.1) else book) := rfl
    rw [hstep, ih]
    rfl

/-- The entry-level fold preserves existing bindings. -/
theorem mem_bitmex_level_entries_of_mem :
    ∀ (entries : List (ℚ × ℚ)) (book : OrderMap) (q w : ℚ),
      (q, w) ∈ book → (q, w) ∈ bitmex_level_entries entries book := by
  intro entries
  induction entries with
  | nil => intro book q w h; exact h
  | cons e es ih =>
    intro book q w h
    have hstep : bitmex_level_entries (e :: es) book =
        bitmex_level_entries es
          (if e.1 ≠ 0 then omEmplace book e.1 (e.2 / e.1) else book) := rfl
    rw [hstep]
    apply ih
    by_cases h0 : e.1 ≠ 0
    · rw [if_pos h0]
      exact mem_omEmplace_of_mem book e.1 (e.2 / e.1) q w h
    · rw [if_neg h0]
      exact h

/-- Every entry of the list with a fresh non-zero price ends up in the
entry-level fold as a `(price, size / price)` level. -/
theorem mem_bitmex_level_entries :
    ∀ (entries : List (ℚ × ℚ)) (book : OrderMap) (p sz : ℚ),
      (p, sz) ∈ entries → p ≠ 0 → (entries.map Prod.fst).Nodup →
      p ∉ omKeys book →
      (p, sz / p) ∈ bitmex_level_entries entries book := by
  intro entries
  induction entries with
  | nil => intro book p sz h; simp at h
  | cons e es ih =>
    intro book p sz hmem hp hnd hnk
    obtain ⟨e1, e2⟩ := e
    simp only [List.map_cons, List.nodup_cons] at hnd
    rcases List.mem_cons.mp hmem with heq | hmem2
    · have hfst : p = e1 := congrArg Prod.fst heq
      have hsnd : sz = e2 := congrArg Prod.snd heq
      subst hfst
      subst hsnd
      have hstep : bitmex_level_entries ((p, sz) :: es) book =
          bitmex_level_entries es (omEmplace book p (sz / p)) := by
        have h1 : bitmex_level_entries ((p, sz) :: es) book =
            bitmex_level_entries es
              (if p ≠ 0 then omEmplace book p (sz / p) else book) := rfl
        rw [h1, if_pos hp]
      rw [hstep]
      exact mem_bitmex_level_entries_of_mem es _ p (sz / p)
        (mem_omEmplace_self book p (sz / p) hnk)
    · have hpfst : p ∈ es.map Prod.fst :=
        List.mem_map.mpr ⟨(p, sz), hmem2, rfl⟩
      have hpne : p ≠ e1 := by
        intro hcontr
        exact hnd.1 (hcontr ▸ hpfst)
      have hstep : bitmex_level_entries ((e1, e2) :: es) book =
          bitmex_level_entries es
            (if e1 ≠ 0 then omEmplace book e1 (e2 / e1) else book) := rfl
      rw [hstep]
      apply ih _ p sz hmem2 hp hnd.2
      by_cases h0 : e1 ≠ 0
      · rw [if_pos h0]
        intro hcontr
        rcases mem_keys_omEmplace book e1 (e2 / e1) p hcontr with h | h
        · exact hpne h
        · exact hnk h
      · rw [if_neg h0]
        exact hnk

/-- The record step skips a record whose symbol does not match. -/
theorem bitmex_record_step_skip (symbol : String) (s : BookState)
    (record sym : JVal) (hfind : record.find "symbol" = some sym)
    (hne : sym.eqStr symbol = false) :
    bitmex_record_step symbol s record = some s := by
  unfold bitmex_record_step
  simp [hfind, hne]

/-- The record step on a built data record equals `bitmex_apply_record`. -/
theorem bitmex_record_step_record (symbol : String) (s : BookState)
    (rsym : String) (A B : List (ℚ × ℚ)) :
    bitmex_record_step symbol s (mk_bitmex_record rsym A B) =
      some (bitmex_apply_record symbol s (rsym, A, B)) := by
  by_cases hsym : rsym = symbol
  · subst hsym
    have h := bitmex_record_step_match rsym s
      (.arr (A.map fun e => JVal.arr [JVal.num e.1, JVal.num e.2]))
      (.arr (B.map fun e => JVal.arr [JVal.num e.1, JVal.num e.2]))
    rw [show mk_bitmex_record rsym A B = JVal.obj [("symbol", .str rsym),
      ("asks", .arr (A.map fun e => JVal.arr [JVal.num e.1, JVal.num e.2])),
      ("bids", .arr (B.map fun e => JVal.arr [JVal.num e.1, JVal.num e.2]))]
      from rfl]
    rw [h]
    simp only [JVal.iterVals, bind, bitmex_parse_records_entries,
      Option.some_bind]
    unfold bitmex_apply_record
    rw [if_pos rfl]
    rfl
  · have hfind : (mk_bitmex_record rsym A B).find "symbol" =
        some (.str rsym) := rfl
    have hne : (JVal.str rsym).eqStr symbol = false := by
      simp [JVal.eqStr]
      exact hsym
    rw [bitmex_record_step_skip symbol s _ _ hfind hne]
    unfold bitmex_apply_record
    rw [if_neg hsym]

/-- Evaluation of the BitMEX handler on a whole update frame: both sides
are cleared and each data record is applied in order. -/
theorem bitmex_handler_frame (symbol : String) (st : BookState)
    (records : List (String × List (ℚ × ℚ) × List (ℚ × ℚ))) :
    bitmex_level2_top10_event_handler symbol st
        (mk_bitmex_frame (records.map fun r =>
          mk_bitmex_record r.1 r.2.1 r.2.2)) =
      some (records.foldl (bitmex_apply_record symbol) ⟨[], []⟩) := by
  have hstep : bitmex_level2_top10_event_handler symbol st
      (mk_bitmex_frame (records.map fun r =>
        mk_bitmex_record r.1 r.2.1 r.2.2)) =
      List.foldlM (bitmex_record_step symbol) ⟨[], []⟩
        (records.map fun r => mk_bitmex_record r.1 r.2.1 r.2.2) := rfl
  rw [hstep]
  suffices haux : ∀ (rs : List (String × List (ℚ × ℚ) × List (ℚ × ℚ)))
      (s : BookState),
      List.foldlM (bitmex_record_step symbol) s
          (rs.map fun r => mk_bitmex_record r.1 r.2.1 r.2.2) =
        some (rs.foldl (bitmex_apply_record symbol) s) by
    exact haux records ⟨[], []⟩
  intro rs
  induction rs with
  | nil => intro s; rfl
  | cons r rest ih =>
    intro s
    obtain ⟨rsym, A, B⟩ := r
    have h1 : List.foldlM (bitmex_record_step symbol) s
        (((rsym, A, B) :: rest).map fun r =>
          mk_bitmex_record r.1 r.2.1 r.2.2) =
        (bitmex_record_step symbol s (mk_bitmex_record rsym A B)).bind
          (fun s2 => List.foldlM (bitmex_record_step symbol) s2
            (rest.map fun r => mk_bitmex_record r.1 r.2.1 r.2.2)) := rfl
    rw [h1, bitmex_record_step_record]
    simp only [Option.some_bind]
    rw [ih]
    rfl

/-- C6: only BitMEX frames with `action == "update"` change the book (other
actions leave the state untouched); an update frame rebuilds the book from
scratch, independently of the previous state; for every update frame, each
data record is applied in order — records of other symbols are skipped and
for every `[price, notional_size]` entry in a matching record's `asks` and
`bids` (fresh non-zero prices) a level with `volume = notional_size /
price` is inserted; and the scenario-5 frame yields exactly the book
`{asks: {ap ↦ asz/ap}, bids: {bp ↦ bsz/bp}}`. -/
theorem bitmex_orderbook10_claim (symbol action : String)
    (st st2 : BookState) (msg : JVal) (ap asz bp bsz : ℚ)
    (records : List (String × List (ℚ × ℚ) × List (ℚ × ℚ)))
    (A B : List (ℚ × ℚ)) (p sz : ℚ)
    (hap : ap ≠ 0) (hbp : bp ≠ 0) :
    (msg.find "action" = some (.str action) → action ≠ "update" →
      bitmex_level2_top10_event_handler symbol st msg = some st) ∧
    (msg.find "action" = some (.str "update") →
      bitmex_level2_top10_event_handler symbol st msg =
        bitmex_level2_top10_event_handler symbol st2 msg) ∧
    (bitmex_level2_top10_event_handler symbol st
        (mk_bitmex_frame (records.map fun r =>
          mk_bitmex_record r.1 r.2.1 r.2.2)) =
      some (records.foldl (bitmex_apply_record symbol) ⟨[], []⟩)) ∧
    (∀ out, bitmex_level2_top10_event_handler symbol st
        (mk_bitmex_frame [mk_bitmex_record symbol A B]) = some out →
      ((p, sz) ∈ A → p ≠ 0 → (A.map Prod.fst).Nodup →
        (p, sz / p) ∈ out.asks) ∧
      ((p, sz) ∈ B → p ≠ 0 → (B.map Prod.fst).Nodup →
        (p, sz / p) ∈ out.bids)) ∧
    bitmex_level2_top10_event_handler symbol st
        (mk_bitmex_update symbol ap asz bp bsz) =
      some ⟨[(ap, asz / ap)], [(bp, bsz / bp)]⟩ := by
  have hsingle : bitmex_level2_top10_event_handler symbol st
      (mk_bitmex_frame [mk_bitmex_record symbol A B]) =
      some ([(symbol, A, B)].foldl (bitmex_apply_record symbol) ⟨[], []⟩) :=
    bitmex_handler_frame symbol st [(symbol, A, B)]
  have hfold : [(symbol, A, B)].foldl (bitmex_apply_record symbol)
      ⟨[], []⟩ =
      ⟨bitmex_level_entries A [], bitmex_level_entries B []⟩ := by
    simp only [List.foldl_cons, List.foldl_nil]
    unfold bitmex_apply_record
    rw [if_pos rfl]
  refine ⟨?_, ?_, bitmex_handler_frame symbol st records, ?_, ?_⟩
  · intro hact hne
    have hobj := jval_find_isObject hact
    unfold bitmex_level2_top10_event_handler
    rw [if_neg (by simp [hobj])]
    simp only [hact, JVal.asString]
    rw [if_pos hne]
  · intro hact
    have hobj := jval_find_isObject hact
    unfold bitmex_level2_top10_event_handler
    rw [if_neg (by simp [hobj]), if_neg (by simp [hobj])]
    simp only [hact, JVal.asString]
    simp
  · intro out hout
    rw [hsingle, hfold] at hout
    have hout2 := Option.some.inj hout
    subst hout2
    constructor
    · intro hmem hp hnd
      exact mem_bitmex_level_entries A [] p sz hmem hp hnd (by simp [omKeys])
    · intro hmem hp hnd
      exact mem_bitmex_level_entries B [] p sz hmem hp hnd (by simp [omKeys])
  · have hstep : bitmex_level2_top10_event_handler symbol st
        (mk_bitmex_update symbol ap asz bp bsz) =
        ((bitmex_record_step symbol ⟨[], []⟩
          (.obj [("symbol", .str symbol),
            ("asks", .arr [.arr [.num ap, .num asz]]),
            ("bids", .arr [.arr [.num bp, .num bsz]])])).bind
          (fun s => pure s)) := rfl
    rw [hstep, bitmex_record_step_match]
    have ha := bitmex_parse_records_single [] ap asz hap
    have hb := bitmex_parse_records_single [] bp bsz hbp
    simp only [JVal.iterVals, bind, ha, hb, Option.some_bind]
    rfl

/-- Witness for C6: the spec's scenario 5 — asks `[[100, 500]]` and bids
`[[99, 495]]` produce the book `{bids: {99 ↦ 5}, asks: {100 ↦ 5}}`. -/
theorem bitmex_orderbook10_claim_witness :
    bitmex_level2_top10_event_handler "XBTUSD" ⟨[((1 : ℚ), (1 : ℚ))], []⟩
        (mk_bitmex_update "XBTUSD" 100 500 99 495) =
      some ⟨[((100 : ℚ), (5 : ℚ))], [((99 : ℚ), (5 : ℚ))]⟩ ∧
    ((100 : ℚ), (500 : ℚ) / 100) ∈
      (⟨[((100 : ℚ), (500 : ℚ) / 100)], [((99 : ℚ), (495 : ℚ) / 99)]⟩ :
        BookState).asks := by
  have h := bitmex_orderbook10_claim "XBTUSD" "partial"
    ⟨[((1 : ℚ), (1 : ℚ))], []⟩ ⟨[], []⟩ .null 100 500 99 495
    [("XBTUSD", [((100 : ℚ), (500 : ℚ))], [((99 : ℚ), (495 : ℚ))])]
    [((100 : ℚ), (500 : ℚ))] [((99 : ℚ), (495 : ℚ))] 100 500
    (by norm_num) (by norm_num)
  constructor
  · rw [h.2.2.2.2]
    norm_num
  · have hout : bitmex_level2_top10_event_handler "XBTUSD"
        ⟨[((1 : ℚ), (1 : ℚ))], []⟩
        (mk_bitmex_frame [mk_bitmex_record "XBTUSD"
          [((100 : ℚ), (500 : ℚ))] [((99 : ℚ), (495 : ℚ))]]) =
        some ⟨[((100 : ℚ), (500 : ℚ) / 100)],
          [((99 : ℚ), (495 : ℚ) / 99)]⟩ := by
      have h2 : bitmex_level2_top10_event_handler "XBTUSD"
          ⟨[((1 : ℚ), (1 : ℚ))], []⟩
          (mk_bitmex_frame [mk_bitmex_record "XBTUSD"
            [((100 : ℚ), (500 : ℚ))] [((99 : ℚ), (495 : ℚ))]]) =
          some ([(("XBTUSD" : String), [((100 : ℚ), (500 : ℚ))],
              [((99 : ℚ), (495 : ℚ))])].foldl
            (bitmex_apply_record "XBTUSD") ⟨[], []⟩) :=
        h.2.2.1
      rw [h2]
      norm_num [bitmex_apply_record, bitmex_level_entries, omEmplace]
    exact (h.2.2.2.1 _ hout).1 (by simp) (by norm_num) (by simp)

/-! ## Market data provider dump pipeline (`market_data_provider.hpp`) -/

/-- Models the pair-collection loop of
`market_data_provider::order_book_handler`: while fewer than `depth`
iterations were done and neither iterator is exhausted, push the next bid
pair then the next ask pair.  The first list argument is the bids in
descending order (`crbegin` iteration), the second the asks ascending. -/
def dump_pairs_loop : ℕ → List (ℚ × ℚ) → List (ℚ × ℚ) → List (ℚ × ℚ)
  | 0, _, _ => []
  | _ + 1, [], _ => []
  | _ + 1, _ :: _, [] => []
  | n + 1, b :: bs, a :: as2 => b :: a :: dump_pairs_loop n bs as2

/-- The `order_book_prices` vector enqueued for one emitted book when
dumping is enabled (`depth` is `price_levels_num`). -/
def order_book_dump_pairs (depth : ℕ) (asks bids : OrderMap) : List (ℚ × ℚ) :=
  dump_pairs_loop depth bids.reverse asks

/-- Length of the collected pair list: two pairs per iteration, stopping at
the configured depth or the shorter side. -/
theorem dump_pairs_loop_length :
    ∀ (n : ℕ) (bs as2 : List (ℚ × ℚ)),
      (dump_pairs_loop n bs as2).length = 2 * min n (min bs.length as2.length) := by
  intro n
  induction n with
  | zero => intro bs as2; simp [dump_pairs_loop]
  | succ k ih =>
    intro bs as2
    cases bs with
    | nil => simp [dump_pairs_loop]
    | cons b bs2 =>
      cases as2 with
      | nil => simp [dump_pairs_loop]
      | cons a as3 =>
        simp only [dump_pairs_loop, List.length_cons, ih]
        omega

/-- Element access of the collected pair list: even slots are bids, odd
slots are asks, in iteration order. -/
theorem dump_pairs_loop_get :
    ∀ (n : ℕ) (bs as2 : List (ℚ × ℚ)) (i : ℕ),
      i < min n (min bs.length as2.length) →
      (dump_pairs_loop n bs as2).get? (2 * i) = bs.get? i ∧
      (dump_pairs_loop n bs as2).get? (2 * i + 1) = as2.get? i := by
  intro n
  induction n with
  | zero => intro bs as2 i hi; simp at hi
  | succ k ih =>
    intro bs as2 i hi
    cases bs with
    | nil => simp at hi
    | cons b bs2 =>
      cases as2 with
      | nil => simp at hi
      | cons a as3 =>
        cases i with
        | zero => exact ⟨rfl, rfl⟩
        | succ j =>
          have hj : j < min k (min bs2.length as3.length) := by
            simp only [List.length_cons] at hi
            omega
          have := ih bs2 as3 j hj
          have h2 : 2 * (j + 1) = (2 * j) + 1 + 1 := by omega
          rw [h2]
          simpa [dump_pairs_loop] using this

/-- C7 (amended): the enqueued quote record holds exactly
`2·min(depth, |bids|, |asks|)` pairs interleaved `(bid, ask, bid, ask, …)`,
the bids taken descending from the best (maximum) bid and the asks
ascending from the best (minimum) ask. -/
theorem order_book_dump_pairs_claim (depth : ℕ) (asks bids : OrderMap)
    (hb : omSorted bids) :
    (order_book_dump_pairs depth asks bids).length =
      2 * min depth (min bids.length asks.length) ∧
    (∀ i, i < min depth (min bids.length asks.length) →
      (order_book_dump_pairs depth asks bids).get? (2 * i) =
        bids.reverse.get? i ∧
      (order_book_dump_pairs depth asks bids).get? (2 * i + 1) =
        asks.get? i) ∧
    List.Pairwise (· > ·) (omKeys bids.reverse) ∧
    (bids ≠ [] → (bids.reverse.head?.map Prod.fst) = some (bestBidOf bids)) ∧
    (asks ≠ [] → (asks.head?.map Prod.fst) = some (bestAskOf asks)) := by
  refine ⟨?_, ?_, ?_, ?_, ?_⟩
  · unfold order_book_dump_pairs
    rw [dump_pairs_loop_length]
    rw [List.length_reverse]
  · intro i hi
    unfold order_book_dump_pairs
    exact dump_pairs_loop_get depth bids.reverse asks i
      (by rwa [List.length_reverse])
  · have : omKeys bids.reverse = (omKeys bids).reverse := by
      unfold omKeys
      rw [List.map_reverse]
    rw [this, List.pairwise_reverse]
    exact hb
  · intro hne
    rw [List.head?_reverse]
    rw [List.getLast?_eq_getLast bids hne]
    simp only [Option.map_some']
    unfold bestBidOf
    rw [List.getLast?_eq_getLast bids hne]
  · intro hne
    cases asks with
    | nil => exact absurd rfl hne
    | cons x rest => rfl

/-- Witness for C7 (amended): a concrete two-level book dumped at depth 1
gives one bid/ask pair each, best levels first. -/
theorem order_book_dump_pairs_claim_witness :
    (order_book_dump_pairs 1 [((101 : ℚ), (3 : ℚ)), ((102 : ℚ), (4 : ℚ))]
        [((99 : ℚ), (2 : ℚ)), ((100 : ℚ), (1 : ℚ))]).length = 2 ∧
    (order_book_dump_pairs 1 [((101 : ℚ), (3 : ℚ)), ((102 : ℚ), (4 : ℚ))]
        [((99 : ℚ), (2 : ℚ)), ((100 : ℚ), (1 : ℚ))]).get? 0 =
      some ((100 : ℚ), (1 : ℚ)) ∧
    (order_book_dump_pairs 1 [((101 : ℚ), (3 : ℚ)), ((102 : ℚ), (4 : ℚ))]
        [((99 : ℚ), (2 : ℚ)), ((100 : ℚ), (1 : ℚ))]).get? 1 =
      some ((101 : ℚ), (3 : ℚ)) := by
  have h := order_book_dump_pairs_claim 1
    [((101 : ℚ), (3 : ℚ)), ((102 : ℚ), (4 : ℚ))]
    [((99 : ℚ), (2 : ℚ)), ((100 : ℚ), (1 : ℚ))]
    (by norm_num [omSorted, omKeys])
  refine ⟨?_, ?_, ?_⟩
  · rw [h.1]
    norm_num
  · rw [(h.2.1 0 (by norm_num)).1]
    rfl
  · have := (h.2.1 0 (by norm_num)).2
    rw [this]
    rfl

/-- Counterexample for C7: with depth 2 and one price level per side, the
enqueued record has 2 pairs, not 2 × depth = 4. -/
theorem dump_pairs_counterexample :
    (order_book_dump_pairs 2 [((100 : ℚ), (1 : ℚ))] [((99 : ℚ), (1 : ℚ))]).length
      = 2 ∧ (2 : ℕ) ≠ 2 * 2 := by
  exact ⟨rfl, by norm_num⟩

/-- Models `market_data_provider::get_block_index`: the record timestamp and
`dump_start` are microsecond counts in `std::int64_t`; the quotient is
returned as C++ `unsigned int`, hence the truncation modulo `2 ^ 32`. -/
def get_block_index (timestamp dump_start_mcs block_period_mcs : ℤ) : ℕ :=
  if dump_start_mcs < timestamp ∧ block_period_mcs ≠ 0 then
    ((timestamp - dump_start_mcs) / block_period_mcs).toNat % 2 ^ 32
  else 0

/-- C8 (amended): with a block period `P = minutes × 60·10⁶ µs` the block
index is `(ts − dump_start) / P` when `ts − dump_start` is positive and the
quotient fits an unsigned int, and 0 otherwise; the claimed inequality
`block·P ≤ ts − dump_start < (block+1)·P` holds whenever
`ts ≥ dump_start` (it fails for records older than `dump_start`). -/
theorem get_block_index_claim (ts start : ℤ) (m : ℕ) (hm : 0 < m) :
    (ts ≤ start → get_block_index ts start ((m : ℤ) * 60000000) = 0) ∧
    (start < ts → (ts - start) / ((m : ℤ) * 60000000) < 2 ^ 32 →
      (get_block_index ts start ((m : ℤ) * 60000000) : ℤ) =
        (ts - start) / ((m : ℤ) * 60000000)) ∧
    (start ≤ ts → (ts - start) / ((m : ℤ) * 60000000) < 2 ^ 32 →
      (get_block_index ts start ((m : ℤ) * 60000000) : ℤ) *
          ((m : ℤ) * 60000000) ≤ ts - start ∧
        ts - start <
          ((get_block_index ts start ((m : ℤ) * 60000000) : ℤ) + 1) *
            ((m : ℤ) * 60000000)) := by
  have hP : (0 : ℤ) < (m : ℤ) * 60000000 := by positivity
  have hPne : ((m : ℤ) * 60000000) ≠ 0 := ne_of_gt hP
  refine ⟨?_, ?_, ?_⟩
  · intro hle
    unfold get_block_index
    rw [if_neg]
    intro hcontra
    exact absurd hcontra.1 (not_lt.mpr hle)
  · intro hlt hfit
    unfold get_block_index
    rw [if_pos ⟨hlt, hPne⟩]
    have hq0 : 0 ≤ (ts - start) / ((m : ℤ) * 60000000) :=
      Int.ediv_nonneg (by omega) (le_of_lt hP)
    have hqlt : ((ts - start) / ((m : ℤ) * 60000000)).toNat < 2 ^ 32 := by
      omega
    rw [Nat.mod_eq_of_lt hqlt]
    omega
  · intro hle hfit
    rcases lt_or_eq_of_le hle with hlt | heq
    · have hidx : (get_block_index ts start ((m : ℤ) * 60000000) : ℤ) =
          (ts - start) / ((m : ℤ) * 60000000) := by
        unfold get_block_index
        rw [if_pos ⟨hlt, hPne⟩]
        have hq0 : 0 ≤ (ts - start) / ((m : ℤ) * 60000000) :=
          Int.ediv_nonneg (by omega) (le_of_lt hP)
        have hqlt : ((ts - start) / ((m : ℤ) * 60000000)).toNat < 2 ^ 32 := by
          omega
        rw [Nat.mod_eq_of_lt hqlt]
        omega
      rw [hidx]
      constructor
      · exact Int.ediv_mul_le (ts - start) hPne
      · exact Int.lt_ediv_add_one_mul_self (ts - start) hP
    · subst heq
      unfold get_block_index
      rw [if_neg (by simp)]
      simp [hP]

/-- Witness for C8 (amended): one-minute blocks, a record 90 seconds after
`dump_start` lands in block 1 and satisfies the bounds. -/
theorem get_block_index_claim_witness :
    get_block_index 90000000 0 60000000 = 1 ∧
    (1 : ℤ) * 60000000 ≤ 90000000 - 0 ∧
    (90000000 : ℤ) - 0 < (1 + 1) * 60000000 := by
  have h := get_block_index_claim 90000000 0 1 (by norm_num)
  have h2 := h.2.1 (by norm_num) (by norm_num)
  have h3 := h.2.2 (by norm_num) (by norm_num)
  norm_num at h2
  refine ⟨?_, by norm_num, by norm_num⟩
  omega

/-- Counterexample for C8: a record timestamped 1 µs before `dump_start`
gets block index 0, and the claimed inequality `block·P ≤ ts − dump_start`
fails because the difference is negative. -/
theorem get_block_index_counterexample :
    get_block_index 999999 1000000 60000000 = 0 ∧
    ¬((get_block_index 999999 1000000 60000000 : ℤ) * 60000000 ≤
        999999 - 1000000) := by
  constructor
  · rfl
  · intro h
    rw [show get_block_index 999999 1000000 60000000 = 0 from rfl] at h
    norm_num at h

/-- Witness for C2: a concrete sorted one-level book where the consistency
check passes and the callback fires. -/
theorem handle_order_book_iff_consistent_witness :
    (handleOrderBookIfConsistent "BTCUSD" [((101 : ℚ), (3 : ℚ))]
      [((100 : ℚ), (1 : ℚ))]).2 = true := by
  have h := handle_order_book_iff_consistent "BTCUSD"
    [((101 : ℚ), (3 : ℚ))] [((100 : ℚ), (1 : ℚ))]
    (by simp [omSorted, omKeys]) (by simp [omSorted, omKeys])
  refine (h.1.mpr ⟨by simp, by simp, ?_, ?_, ?_⟩).1
  all_goals norm_num [bestBidOf, bestAskOf]

end MarketData
